import Mathlib

/-
Verification of the sktm watcher core (sktm/__init__.py): the
ingestion -> filter -> submit -> reconcile control loop.

The embedding translates the watcher class into pure Lean functions.
External collaborators (the database, the Jenkins interface, the
Patchwork interfaces, the filter subprocess) are passed in as an
explicit environment of functions, and the store- and CI-visible
actions of each operation are recorded as an explicit event trace.
-/

namespace Sktm

/-- Result classification of a completed build.
Modelled from the spec: sktm.misc is not under src; section 6 gives
get_result a codomain of SUCCESS, FAILURE, ERROR. -/
inductive TestResult where
  | SUCCESS
  | FAILURE
  | ERROR
deriving DecidableEq, Repr

/-- Type tag of an in-flight job.
Modelled from the spec: sktm.misc is not under src; section 3 gives
job_type two values, BASELINE and PATCHWORK. -/
inductive JobType where
  | BASELINE
  | PATCHWORK
deriving DecidableEq, Repr

/-- The durable projection of a patch: the 6-tuple
(patch_id, patch_name, patch_url, base_url, project_id, patch_date)
returned by watcher.get_patch_info_from_url. -/
structure PatchInfo where
  patch_id : Nat
  patch_name : String
  patch_url : String
  base_url : String
  project_id : Nat
  patch_date : String
deriving DecidableEq, Repr

/-- A patch series summary as produced by the Patchwork interfaces
(sktm.patchwork, not under src). Modelled from the spec, section 3:
ordered patch references, optional cover letter, message id, subject,
contributor addresses; get_patch_info_list returns the PatchInfo
projection used for the pending mark. -/
structure SeriesSummary where
  patch_urls : List String
  mbox_urls : List String
  cover_letter : Option String
  message_id : String
  subject : String
  emails : List String
  patch_info_list : List PatchInfo
deriving DecidableEq, Repr

/-- A patch record as returned by interface.get_patch_by_id.
Modelled from the spec, section 6: fields name, date, and a project
identifier stored under a nested project field in the V2 variant and
a flat project_id field in the V1 variant. -/
structure PatchRecord where
  name : String
  date : String
  project_id : Nat
  project_nested_id : Nat
deriving DecidableEq, Repr

/-- A Patchwork project interface, as far as the watcher consults it.
The method results are supplied as functions; isV2 models the
isinstance check on PatchworkV2Project. -/
structure Patchwork where
  baseurl : String
  project_id : Nat
  isV2 : Bool
  get_patch_by_id : Nat → PatchRecord
  new_patchsets : List SeriesSummary
  get_patchsets : List PatchInfo → List SeriesSummary

/-- One entry of watcher.pj: the Python 3-tuple
(job type, build number, patchwork interface). The interface is
referred to by its index in the watcher.pw list, none for baseline
jobs. -/
abbrev InFlight := JobType × Nat × Option Nat

/-- Build id of an in-flight entry. -/
def bidOf (e : InFlight) : Nat := e.2.1

/-- Store- and CI-visible actions of the watcher, recorded in order.
submitBuild and setPatchsetPending carry the series being processed;
the store receives series.patch_info_list, the CI backend receives
the message id, subject, emails and patch URL list of the series.
The bid argument of commitTested is a trace annotation recording
which completed build the commit serves (the Python call
db.commit_tested(patches) receives the patches only). -/
inductive Event where
  | commitSeries (patches : List PatchInfo)
  | submitBuild (bid : Nat) (series : SeriesSummary)
  | submitBaseline (bid : Nat)
  | setPatchsetPending (baseurl : String) (project_id : Nat) (series : SeriesSummary)
  | queryComplete (bid : Nat) (complete : Bool)
  | removeJob (bid : Nat)
  | updateBaseline (repo : String) (hash : String) (date : String)
      (result : TestResult) (bid : Nat)
  | commitTested (bid : Nat) (patches : List PatchInfo)
deriving DecidableEq, Repr

/-- Environment of external collaborators: the configured filter
program, the subprocess exit status oracle, the database reads, and
the Jenkins reads. Jenkins build submission is modelled separately as
a fresh-number allocator (the nextBuild counter of WatcherState). -/
structure Env where
  patch_filter : Option String
  run : List String → Int
  get_stable : String → Option String
  get_expired_pending : String → Nat → Nat → List PatchInfo
  is_build_complete : Nat → Bool
  get_result : Nat → TestResult
  get_base_hash : Nat → String
  get_base_commitdate : Nat → String
  get_patch_url_list : Nat → List String

/-- Mutable state of the watcher object: the in-flight list pj, the
CI backend build counter (modelled from the spec: sktm.jenkins is not
under src; build numbers of successive submissions are distinct,
modelled as an increasing counter), and a history variable recording
every build id whose completion check_pending has observed (used to
state the never-re-added invariant; the Python object keeps no such
list). -/
structure WatcherState where
  pj : List InFlight
  nextBuild : Nat
  completed : List Nat
deriving DecidableEq, Repr

/-- Python truthiness of an optional string: None and the empty
string are falsy. -/
def pyTruthy : Option String → Bool
  | none => false
  | some s => !s.isEmpty

/-- Argument vector built by filter_patchsets for one series:
the filter program, then --cover and the cover letter mbox URL if a
cover letter exists, then the patch mbox URLs. -/
def filter_argv (f : String) (s : SeriesSummary) : List String :=
  [f] ++ (match s.cover_letter with
          | some c => ["--cover", c]
          | none => []) ++ s.mbox_urls

/-- The filter loop of watcher.filter_patchsets: run the filter
program on each series; exit status 0 appends to ready, 1 appends to
dropped, 127 raises, a negative status raises (signal termination),
any other status raises. A raise aborts the whole batch. -/
def filter_loop (f : String) (run : List String → Int) :
    List SeriesSummary → Except String (List SeriesSummary × List SeriesSummary)
  | [] => .ok ([], [])
  | s :: rest =>
    let status := run (filter_argv f s)
    if status = 0 then
      (filter_loop f run rest).map (fun p => (s :: p.1, p.2))
    else if status = 1 then
      (filter_loop f run rest).map (fun p => (p.1, s :: p.2))
    else if status = 127 then
      .error "Filter command failed"
    else if status < 0 then
      .error "Filter command was terminated by signal"
    else
      .error "Filter command returned invalid status"

/-- watcher.filter_patchsets: when a filter program is configured
(truthy), classify each series by the filter exit status; otherwise
every series is ready and none dropped. -/
def filter_patchsets (patch_filter : Option String) (run : List String → Int)
    (series_summary_list : List SeriesSummary) :
    Except String (List SeriesSummary × List SeriesSummary) :=
  match patch_filter with
  | some f => if f.isEmpty then .ok (series_summary_list, []) else filter_loop f run series_summary_list
  | none => .ok (series_summary_list, [])

/-- Decimal value of a digit string, as Python int() computes it on a
string of ASCII digits (leading zeros allowed). -/
def digitsToNat (ds : List Char) : Nat :=
  ds.foldl (fun n c => 10 * n + (c.toNat - 48)) 0

/-- Python str.replace for single-character arguments: every
occurrence of old is replaced by new. -/
def pyReplaceChar (old new : Char) (s : String) : String :=
  String.mk (s.data.map (fun c => if c = old then new else c))

/-- The digit-suffix match underlying parse_patch_url, applied to
the URL after the optional trailing newline has been discarded: the
trimmed text must end in /patch/ followed by a nonempty run of
decimal digits, and the base before that final /patch/ (the greedy
first group, whose dot cannot match a newline) must hold no newline.
Because a slash is not a digit, the digit group is forced to be the
maximal digit suffix and the split is unique. -/
def parse_patch_url_body (body : List Char) : Option (String × String) :=
  let ds := (body.reverse.takeWhile Char.isDigit).reverse
  let pre := body.take (body.length - ds.length)
  if ds ≠ [] ∧ 7 ≤ pre.length ∧ pre.drop (pre.length - 7) = ("/patch/").data ∧
      '\n' ∉ pre.take (pre.length - 7) then
    some (String.mk (pre.take (pre.length - 7)), String.mk ds)
  else
    none

/-- The regular expression match of get_patch_info_from_url:
re.match of (.*)/patch/(\d+)$ on the patch URL, with the Python
semantics of its metacharacters: the final anchor matches at the end
of the string or just before a single newline that ends the string
(that newline stays unconsumed), and the dot of the greedy first
group does not match a newline, so the matched base holds none. The
URL matches exactly when, after one trailing newline (if present) is
discarded, it ends in /patch/ followed by a nonempty digit run whose
base contains no newline. -/
def parse_patch_url (url : String) : Option (String × String) :=
  parse_patch_url_body
    (if url.data.getLast? = some '\n' then url.data.dropLast else url.data)

/-- watcher.get_patch_info_from_url: parse the patch URL, raising on
a URL that does not match; look the patch up through the interface;
take project_id from the nested project field for a V2 interface and
from the flat field otherwise; return the PatchInfo tuple with every
space in the date replaced by T. -/
def get_patch_info_from_url (interface : Patchwork) (patch_url : String) :
    Except String PatchInfo :=
  match parse_patch_url patch_url with
  | none => .error ("Malformed patch url: " ++ patch_url)
  | some (baseurl, digits) =>
    let patch_id := digitsToNat digits.data
    let patch := interface.get_patch_by_id patch_id
    let project_id := if interface.isV2 then patch.project_nested_id else patch.project_id
    .ok { patch_id := patch_id
          patch_name := patch.name
          patch_url := patch_url
          base_url := baseurl
          project_id := project_id
          patch_date := pyReplaceChar ' ' 'T' patch.date }

/-- Sequential resolution of a list of patch URLs to PatchInfo
tuples; the first malformed URL aborts the whole resolution. -/
def resolve_urls (interface : Patchwork) : List String → Except String (List PatchInfo)
  | [] => .ok []
  | u :: rest =>
    match get_patch_info_from_url interface u with
    | .error e => .error e
    | .ok p =>
      match resolve_urls interface rest with
      | .error e => .error e
      | .ok ps => .ok (p :: ps)

/-- The dropped-series loop of watcher.check_patchwork: for each
dropped series, resolve every patch URL to a PatchInfo tuple and
commit the series to the store; a resolution error aborts the loop,
keeping the commits already made. -/
def drop_loop (interface : Patchwork) :
    List SeriesSummary → List Event × Option String
  | [] => ([], none)
  | s :: rest =>
    match resolve_urls interface s.patch_urls with
    | .error e => ([], some e)
    | .ok patches =>
      let (tr, err) := drop_loop interface rest
      (Event.commitSeries patches :: tr, err)

/-- The submission loop of watcher.check_patchwork: for each series,
submit a build (the CI backend allocates the next build number),
append the (PATCHWORK, build number, interface) entry to pj, then
re-add the patches of the series to the pending list. -/
def submit_loop (pwIdx : Nat) (interface : Patchwork) :
    List SeriesSummary → WatcherState → WatcherState × List Event
  | [], st => (st, [])
  | s :: rest, st =>
    let bid := st.nextBuild
    let st1 : WatcherState :=
      { st with pj := st.pj ++ [(JobType.PATCHWORK, bid, some pwIdx)]
                nextBuild := st.nextBuild + 1 }
    let (st2, tr) := submit_loop pwIdx interface rest st1
    (st2, Event.submitBuild bid s ::
          Event.setPatchsetPending interface.baseurl interface.project_id s :: tr)

/-- Processing of one Patchwork interface inside
watcher.check_patchwork: fetch the new series, filter them, persist
every dropped series, then submit the ready series together with the
re-materialized expired pending series and mark their patches
pending. An exception from the filter or from a resolution leaves
the state as it was at that point. -/
def process_pw (env : Env) (pwIdx : Nat) (interface : Patchwork)
    (st : WatcherState) : WatcherState × List Event × Option String :=
  match filter_patchsets env.patch_filter env.run interface.new_patchsets with
  | .error e => (st, [], some e)
  | .ok (ready, dropped) =>
    match drop_loop interface dropped with
    | (tr1, some e) => (st, tr1, some e)
    | (tr1, none) =>
      let expired := env.get_expired_pending interface.baseurl interface.project_id 43200
      let series_list := ready ++ interface.get_patchsets expired
      let (st2, tr2) := submit_loop pwIdx interface series_list st
      (st2, tr1 ++ tr2, none)

/-- The interface loop of watcher.check_patchwork, with the running
interface index; an exception aborts the remaining interfaces but
keeps the state reached so far. -/
def check_patchwork_go (env : Env) :
    Nat → List Patchwork → WatcherState → WatcherState × List Event × Option String
  | _, [], st => (st, [], none)
  | i, interface :: rest, st =>
    match process_pw env i interface st with
    | (st1, tr1, some e) => (st1, tr1, some e)
    | (st1, tr1, none) =>
      let (st2, tr2, err) := check_patchwork_go env (i + 1) rest st1
      (st2, tr1 ++ tr2, err)

/-- watcher.check_patchwork: resolve the stable baseline commit for
the base repository, raising before anything else if none is
recorded (Python falsiness: None or the empty string), then process
every Patchwork interface. -/
def check_patchwork (env : Env) (baserepo : String) (pws : List Patchwork)
    (st : WatcherState) : WatcherState × List Event × Option String :=
  if pyTruthy (env.get_stable baserepo) then
    check_patchwork_go env 0 pws st
  else
    (st, [], some ("No known stable baseline for repo " ++ baserepo))

/-- watcher.check_baseline: submit a baseline build and append the
(BASELINE, build number, None) entry to pj. -/
def check_baseline (st : WatcherState) : WatcherState × List Event :=
  ({ st with pj := st.pj ++ [(JobType.BASELINE, st.nextBuild, none)]
             nextBuild := st.nextBuild + 1 },
   [Event.submitBaseline st.nextBuild])

/-- Resolution of the recorded patch URL list of a completed
PATCHWORK job through the interface stored in its pj entry. A
missing interface reference is an exception, as the Python attribute
access on None would be. -/
def resolve_job (pws : List Patchwork) (cpw : Option Nat) (urls : List String) :
    Except String (List PatchInfo) :=
  match cpw.bind (fun k => pws[k]?) with
  | none => .error "no patchwork interface for job"
  | some interface => resolve_urls interface urls

/-- The reconciliation loop of watcher.check_pending over the pj
list, modelling the Python for-loop with its list-iterator index:
the loop yields pj at the current index of the current list; each
completed entry is removed from the list the loop is iterating over
(list.remove deletes the first equal element), so the iterator then
skips the element that slid into the removed slot. For a completed
build: read the result, remove the entry, then ignore an ERROR
result, update the baseline for a BASELINE job, or resolve the
recorded patch URLs and commit them as tested for a PATCHWORK job; a
resolution error propagates, keeping the state reached so far.
Returns the final pj list, the completion history, the event trace
and the propagated exception, if any. -/
def check_pending_go (env : Env) (pws : List Patchwork) (baserepo : String)
    (pj : List InFlight) (i : Nat) (completed : List Nat) :
    List InFlight × List Nat × List Event × Option String :=
  if h : i < pj.length then
    if env.is_build_complete pj[i].2.1 then
      if env.get_result pj[i].2.1 = TestResult.ERROR then
        let r := check_pending_go env pws baserepo (pj.erase pj[i]) (i + 1)
                   (completed ++ [pj[i].2.1])
        (r.1, r.2.1,
         Event.queryComplete pj[i].2.1 true :: Event.removeJob pj[i].2.1 :: r.2.2.1,
         r.2.2.2)
      else
        match pj[i].1 with
        | JobType.BASELINE =>
          let r := check_pending_go env pws baserepo (pj.erase pj[i]) (i + 1)
                     (completed ++ [pj[i].2.1])
          (r.1, r.2.1,
           Event.queryComplete pj[i].2.1 true :: Event.removeJob pj[i].2.1 ::
             Event.updateBaseline baserepo (env.get_base_hash pj[i].2.1)
               (env.get_base_commitdate pj[i].2.1) (env.get_result pj[i].2.1)
               pj[i].2.1 :: r.2.2.1,
           r.2.2.2)
        | JobType.PATCHWORK =>
          match resolve_job pws pj[i].2.2 (env.get_patch_url_list pj[i].2.1) with
          | .error msg =>
            (pj.erase pj[i], completed ++ [pj[i].2.1],
             [Event.queryComplete pj[i].2.1 true, Event.removeJob pj[i].2.1],
             some msg)
          | .ok patches =>
            let r := check_pending_go env pws baserepo (pj.erase pj[i]) (i + 1)
                       (completed ++ [pj[i].2.1])
            (r.1, r.2.1,
             Event.queryComplete pj[i].2.1 true :: Event.removeJob pj[i].2.1 ::
               Event.commitTested pj[i].2.1 patches :: r.2.2.1, r.2.2.2)
    else
      let r := check_pending_go env pws baserepo pj (i + 1) completed
      (r.1, r.2.1, Event.queryComplete pj[i].2.1 false :: r.2.2.1, r.2.2.2)
  else
    (pj, completed, [], none)
termination_by pj.length - i
decreasing_by
  all_goals
    first
    | (simp only [List.length_erase_of_mem (List.getElem_mem h)]; omega)
    | omega

/-- watcher.check_pending on the watcher state. -/
def check_pending (env : Env) (pws : List Patchwork) (baserepo : String)
    (st : WatcherState) : WatcherState × List Event × Option String :=
  let r := check_pending_go env pws baserepo st.pj 0 st.completed
  ({ st with pj := r.1, completed := r.2.1 }, r.2.2.1, r.2.2.2)

/-- The watcher operations whose interleavings generate the
reachable states: baseline submission, a Patchwork ingestion cycle,
and a reconciliation pass. -/
inductive Op where
  | baseline
  | patchwork
  | pending
deriving DecidableEq, Repr

/-- One watcher operation on the state. -/
def runOp (env : Env) (pws : List Patchwork) (baserepo : String) :
    Op → WatcherState → WatcherState × List Event × Option String
  | .baseline, st =>
    let (st1, tr) := check_baseline st
    (st1, tr, none)
  | .patchwork, st => check_patchwork env baserepo pws st
  | .pending, st => check_pending env pws baserepo st

/-- A sequence of watcher operations; an exception from one
operation leaves its partial state, from which the driver may go
on. -/
def runOps (env : Env) (pws : List Patchwork) (baserepo : String) :
    List Op → WatcherState → WatcherState × List Event
  | [], st => (st, [])
  | o :: os, st =>
    let r := runOp env pws baserepo o st
    let (st2, tr2) := runOps env pws baserepo os r.1
    (st2, r.2.1 ++ tr2)

/-- The state of a fresh watcher: empty pj, empty history, build
counter at zero. -/
def initState : WatcherState := { pj := [], nextBuild := 0, completed := [] }

/-- Run a sequence of watcher operations from the fresh state. -/
def watcherRun (env : Env) (pws : List Patchwork) (baserepo : String)
    (ops : List Op) : WatcherState × List Event :=
  runOps env pws baserepo ops initState

/-- Cursor-bootstrap reads of the store used by watcher.add_pw. -/
structure CursorDb where
  get_last_checked_patch : String → Nat → Option Nat
  get_last_pending_patch : String → Nat → Option Nat
  get_last_checked_patch_date : String → Nat → Option String
  get_last_pending_patch_date : String → Nat → Option String

/-- A registered Patchwork project as watcher.add_pw leaves it:
lastpatch is the V1 cursor, since the V2 cursor. -/
structure PwProject where
  baseurl : String
  pname : String
  project_id : Nat
  isV2 : Bool
  lastpatch : Option Nat
  since : Option String
deriving DecidableEq, Repr

/-- Construction of a PatchworkV2Project.
Modelled from the spec: sktm.patchwork is not under src; the
constructor resolves the project name to a project id (projectIdOf)
and stores the given last-patch id; the since cursor starts
unset. -/
def mkV2 (projectIdOf : String → String → Nat) (baseurl pname : String)
    (lpatch : Option Nat) : PwProject :=
  { baseurl := baseurl, pname := pname, project_id := projectIdOf baseurl pname,
    isV2 := true, lastpatch := lpatch, since := none }

/-- Construction of a PatchworkV1Project.
Modelled from the spec: sktm.patchwork is not under src; the
constructor resolves the project name to a project id and stores the
given last-patch id as the cursor. -/
def mkV1 (projectIdOf : String → String → Nat) (baseurl pname : String)
    (lpatch : Option Nat) : PwProject :=
  { baseurl := baseurl, pname := pname, project_id := projectIdOf baseurl pname,
    isV2 := false, lastpatch := lpatch, since := none }

/-- Python 2 max over two optional numbers: None orders below every
value, so the maximum is None only when both arguments are None. The
source relies on this (it takes the max first and tests it for None
afterwards). -/
def py2maxNat : Option Nat → Option Nat → Option Nat
  | none, b => b
  | some a, none => some a
  | some a, some b => some (max a b)

/-- Lexicographic comparison of character lists, as Python 2
compares strings (character by character by code point, a proper
prefix ordering below its extensions). -/
def charListLt : List Char → List Char → Bool
  | [], [] => false
  | [], _ :: _ => true
  | _ :: _, [] => false
  | a :: as, b :: bs =>
    if a < b then true else if b < a then false else charListLt as bs

/-- Python 2 max over two optional date strings, compared
lexicographically; None orders below every value. -/
def py2maxStr : Option String → Option String → Option String
  | none, b => b
  | some a, none => some a
  | some a, some b => some (if charListLt a.data b.data then b else a)

/-- watcher.add_pw: construct the Patchwork project (REST for
restapi, XMLRPC otherwise); when no explicit last-patch id is given,
bootstrap the cursor from the store as the maximum of the
last-checked and last-pending values, raising when that maximum is
None, i.e. when neither exists; finally append the project to the pw
list. -/
def add_pw (db : CursorDb) (projectIdOf : String → String → Nat)
    (pwlist : List PwProject) (baseurl pname : String) (lpatch : Option Nat)
    (restapi : Bool) : Except String (List PwProject) :=
  if restapi then
    let pw := mkV2 projectIdOf baseurl pname lpatch
    match lpatch with
    | none =>
      let lcdate := db.get_last_checked_patch_date baseurl pw.project_id
      let lpdate := db.get_last_pending_patch_date baseurl pw.project_id
      match py2maxStr lcdate lpdate with
      | none =>
        .error (baseurl ++ " project: " ++ pname ++
                " was never tested before, please provide initial patch id")
      | some since => .ok (pwlist ++ [{ pw with since := some since }])
    | some _ => .ok (pwlist ++ [pw])
  else
    let pw := mkV1 projectIdOf baseurl pname lpatch
    match lpatch with
    | none =>
      let lcpatch := db.get_last_checked_patch baseurl pw.project_id
      let lppatch := db.get_last_pending_patch baseurl pw.project_id
      match py2maxNat lcpatch lppatch with
      | none =>
        .error (baseurl ++ " project: " ++ pname ++
                " was never tested before, please provide initial patch id")
      | some lp => .ok (pwlist ++ [{ pw with lastpatch := some lp }])
    | some _ => .ok (pwlist ++ [pw])

/-- Whether an event is a store mutation performed for completed
build b: a baseline update or a tested-patch commit for b. -/
def isMutFor (b : Nat) : Event → Bool
  | Event.updateBaseline _ _ _ _ bid => bid == b
  | Event.commitTested bid _ => bid == b
  | _ => false

/-- Every store mutation for a build in the trace is preceded by the
removal of that build from the in-flight set. -/
abbrev RemBeforeMut (tr : List Event) : Prop :=
  ∀ (i : Nat) (ev : Event) (b : Nat), tr[i]? = some ev → isMutFor b ev = true →
    ∃ j : Nat, j < i ∧ tr[j]? = some (Event.removeJob b)

/-- The in-flight invariant: build ids in pj are distinct and below
the allocation counter, and every build id whose completion was
observed is below the counter and no longer in pj. -/
def InvS (st : WatcherState) : Prop :=
  (st.pj.map bidOf).Nodup ∧
  (∀ e ∈ st.pj, bidOf e < st.nextBuild) ∧
  (∀ b ∈ st.completed, b < st.nextBuild) ∧
  (∀ b ∈ st.completed, b ∉ st.pj.map bidOf)

/-- A concrete series fixture used by witnesses. -/
def wSeries : SeriesSummary :=
  { patch_urls := ["b/patch/1"], mbox_urls := ["mR"], cover_letter := some "cov",
    message_id := "mid1", subject := "subj1", emails := ["a@x"],
    patch_info_list := [] }

/-- A concrete series fixture that the witness filter drops. -/
def wSeriesDrop : SeriesSummary :=
  { patch_urls := ["b/patch/2"], mbox_urls := ["mD"], cover_letter := none,
    message_id := "mid2", subject := "subj2", emails := ["b@x"],
    patch_info_list := [] }

/-- A concrete series fixture with a malformed patch URL. -/
def wSeriesBad : SeriesSummary :=
  { patch_urls := ["b/patches/5"], mbox_urls := ["mB"], cover_letter := none,
    message_id := "mid3", subject := "subj3", emails := ["c@x"],
    patch_info_list := [] }

/-- A concrete patch record fixture. -/
def wRecord : PatchRecord :=
  { name := "p", date := "2017-01-01 10:00:00", project_id := 3,
    project_nested_id := 4 }

/-- A concrete Patchwork interface fixture. -/
def wIface : Patchwork :=
  { baseurl := "b", project_id := 3, isV2 := false,
    get_patch_by_id := fun _ => wRecord,
    new_patchsets := [wSeries, wSeriesDrop], get_patchsets := fun _ => [] }

/-- A concrete environment fixture: every build complete with an
ERROR result, no filter, a stable baseline recorded. -/
def wEnvBase : Env :=
  { patch_filter := none, run := fun _ => 0,
    get_stable := fun _ => some "c0",
    get_expired_pending := fun _ _ _ => [],
    is_build_complete := fun _ => true,
    get_result := fun _ => TestResult.ERROR,
    get_base_hash := fun _ => "h", get_base_commitdate := fun _ => "d",
    get_patch_url_list := fun _ => [] }

/-- Environment fixture with no stable baseline recorded. -/
def wEnvNoStable : Env := { wEnvBase with get_stable := fun _ => none }

/-- Environment fixture with a filter that drops the series whose
mbox list holds mD and accepts the rest. -/
def wEnvFilter : Env :=
  { wEnvBase with patch_filter := some "flt",
                  run := fun argv => if "mD" ∈ argv then 1 else 0 }

/-- A state fixture with two baseline jobs in flight. -/
def wStateTwo : WatcherState :=
  { pj := [(JobType.BASELINE, 0, none), (JobType.BASELINE, 1, none)],
    nextBuild := 2, completed := [] }

/-- A state fixture with one patchwork job in flight. -/
def wStatePW : WatcherState :=
  { pj := [(JobType.PATCHWORK, 5, some 0)], nextBuild := 6, completed := [] }

/-- Cursor store fixture with recorded activity. -/
def wDbAll : CursorDb :=
  { get_last_checked_patch := fun _ _ => some 7,
    get_last_pending_patch := fun _ _ => some 9,
    get_last_checked_patch_date := fun _ _ => some "2017-01-01 10:00:00",
    get_last_pending_patch_date := fun _ _ => some "2017-02-01 10:00:00" }

/-- Cursor store fixture with no recorded activity. -/
def wDbNone : CursorDb :=
  { get_last_checked_patch := fun _ _ => none,
    get_last_pending_patch := fun _ _ => none,
    get_last_checked_patch_date := fun _ _ => none,
    get_last_pending_patch_date := fun _ _ => none }

/-- With a configured filter the gate is the filter loop. -/
theorem filter_patchsets_eq_loop (f : String) (hf : f.isEmpty = false)
    (run : List String → Int) (l : List SeriesSummary) :
    filter_patchsets (some f) run l = filter_loop f run l := by
  simp [filter_patchsets, hf]

/-- A series whose filter status is neither 0 nor 1 aborts the whole
batch with an exception. -/
theorem filter_loop_fatal (f : String) (run : List String → Int)
    (l : List SeriesSummary)
    (hbad : ∃ s ∈ l, run (filter_argv f s) ≠ 0 ∧ run (filter_argv f s) ≠ 1) :
    ∃ e, filter_loop f run l = .error e := by
  induction l with
  | nil => simp at hbad
  | cons s rest ih =>
    rcases hbad with ⟨t, ht, h0, h1⟩
    rcases List.mem_cons.mp ht with rfl | htr
    · simp only [filter_loop]
      rw [if_neg h0, if_neg h1]
      split_ifs <;> exact ⟨_, rfl⟩
    · by_cases hs0 : run (filter_argv f s) = 0
      · obtain ⟨e, he⟩ := ih ⟨t, htr, h0, h1⟩
        simp only [filter_loop, hs0, if_pos, he]
        exact ⟨e, rfl⟩
      · by_cases hs1 : run (filter_argv f s) = 1
        · obtain ⟨e, he⟩ := ih ⟨t, htr, h0, h1⟩
          simp only [filter_loop]
          rw [if_neg hs0, if_pos hs1, he]
          exact ⟨e, rfl⟩
        · simp only [filter_loop]
          rw [if_neg hs0, if_neg hs1]
          split_ifs <;> exact ⟨_, rfl⟩

/-- Classification of a single series by its filter exit status. -/
theorem filter_single (f : String) (hf : f.isEmpty = false)
    (run : List String → Int) (s : SeriesSummary) :
    (run (filter_argv f s) = 0 → filter_patchsets (some f) run [s] = .ok ([s], [])) ∧
    (run (filter_argv f s) = 1 → filter_patchsets (some f) run [s] = .ok ([], [s])) ∧
    (run (filter_argv f s) ≠ 0 → run (filter_argv f s) ≠ 1 →
      ∃ e, filter_patchsets (some f) run [s] = .error e) := by
  rw [filter_patchsets_eq_loop f hf]
  refine ⟨fun h0 => ?_, fun h1 => ?_, fun h0 h1 => ?_⟩
  · simp [filter_loop, h0, Except.map]
  · have : (1 : Int) ≠ 0 := by omega
    simp [filter_loop, h1, Except.map]
  · exact filter_loop_fatal f run [s] ⟨s, by simp, h0, h1⟩

/-- Strings with equal character lists are equal. -/
theorem string_eq_of_data (a b : String) (h : a.data = b.data) : a = b := by
  cases a; cases b; exact congrArg String.mk h

/-- takeWhile passes over a block that satisfies the predicate. -/
theorem takeWhile_append_all (p : Char → Bool) (l1 l2 : List Char)
    (h : ∀ a ∈ l1, p a = true) :
    (l1 ++ l2).takeWhile p = l1 ++ l2.takeWhile p := by
  induction l1 with
  | nil => simp
  | cons a t ih =>
    have ha : p a = true := h a (by simp)
    have iht := ih (fun x hx => h x (by simp [hx]))
    simp [List.takeWhile_cons, ha, iht]

/-- Character content of the /patch/ segment. -/
theorem patch_seg_data : ("/patch/").data = ['/', 'p', 'a', 't', 'c', 'h', '/'] := by
  decide

/-- Any character list splits at the boundary of its maximal suffix
satisfying p. -/
theorem suffix_decomp (p : Char → Bool) (cs : List Char) :
    cs = (cs.reverse.dropWhile p).reverse ++ (cs.reverse.takeWhile p).reverse := by
  conv_lhs => rw [← List.reverse_reverse cs]
  rw [← List.takeWhile_append_dropWhile p cs.reverse]
  rw [List.reverse_append]
  simp

/-- A list whose last element is c splits as its dropLast plus c. -/
theorem eq_dropLast_append (l : List Char) (c : Char) (h : l.getLast? = some c) :
    l = l.dropLast ++ [c] := by
  induction l with
  | nil => simp at h
  | cons a t ih =>
    cases t with
    | nil =>
      rw [List.getLast?_singleton] at h
      obtain rfl := Option.some.inj h
      rfl
    | cons b t2 =>
      rw [List.getLast?_cons_cons] at h
      have hrec := ih h
      show a :: (b :: t2) = (a :: (b :: t2).dropLast) ++ [c]
      rw [List.cons_append, ← hrec]

/-- A list ending in a nonempty digit run does not end in a
newline. -/
theorem getLast?_append_digits (pre : List Char) (ds : String) (hne : ds.data ≠ [])
    (hdig : ∀ c ∈ ds.data, c.isDigit = true) :
    (pre ++ ds.data).getLast? ≠ some '\n' := by
  obtain ⟨c, t, hct⟩ : ∃ c t, ds.data.reverse = c :: t := by
    cases hrev : ds.data.reverse with
    | nil => exact absurd (by simpa using congrArg List.reverse hrev) hne
    | cons c t => exact ⟨c, t, rfl⟩
  have hcd : c.isDigit = true := by
    apply hdig
    apply List.mem_reverse.mp
    rw [hct]
    simp
  rw [← List.head?_reverse, List.reverse_append, hct, List.cons_append,
    List.head?_cons]
  intro hcn
  obtain rfl := Option.some.inj hcn
  exact absurd hcd (by decide)

/-- Completeness of the digit-suffix match on the trimmed text. -/
theorem parse_body_append (base ds : String) (hne : ds.data ≠ [])
    (hdig : ∀ c ∈ ds.data, c.isDigit = true) (hbase : '\n' ∉ base.data) :
    parse_patch_url_body ((base.data ++ ("/patch/").data) ++ ds.data) =
      some (base, ds) := by
  have hrev : ("/patch/").data.reverse = '/' :: ['h', 'c', 't', 'a', 'p', '/'] := by
    decide
  have hslash : Char.isDigit '/' = false := by decide
  have hz : ((base.data ++ ("/patch/").data).reverse).takeWhile Char.isDigit = [] := by
    rw [List.reverse_append, hrev, List.cons_append]
    simp [List.takeWhile_cons, hslash]
  have hsuffix :
      (((base.data ++ ("/patch/").data) ++ ds.data).reverse.takeWhile Char.isDigit).reverse
        = ds.data := by
    rw [List.reverse_append]
    rw [takeWhile_append_all Char.isDigit ds.data.reverse _
        (fun a ha => hdig a (List.mem_reverse.mp ha))]
    rw [hz, List.append_nil, List.reverse_reverse]
  have hplen : (base.data ++ ("/patch/").data).length = base.data.length + 7 := by
    rw [List.length_append, patch_seg_data]
    rfl
  have hlen : ((base.data ++ ("/patch/").data) ++ ds.data).length -
      ds.data.length = (base.data ++ ("/patch/").data).length := by
    rw [List.length_append]
    omega
  have hpre : ((base.data ++ ("/patch/").data) ++ ds.data).take
      ((base.data ++ ("/patch/").data).length) = base.data ++ ("/patch/").data :=
    List.take_left _ _
  have hdrop : (base.data ++ ("/patch/").data).drop
      ((base.data ++ ("/patch/").data).length - 7) = ("/patch/").data := by
    rw [hplen, Nat.add_sub_cancel]
    exact List.drop_left _ _
  have htake : (base.data ++ ("/patch/").data).take
      ((base.data ++ ("/patch/").data).length - 7) = base.data := by
    rw [hplen, Nat.add_sub_cancel]
    exact List.take_left _ _
  simp only [parse_patch_url_body, hsuffix, hlen, hpre]
  rw [if_pos ⟨hne, by rw [hplen]; omega, hdrop, by rw [htake]; exact hbase⟩, htake]

/-- Completeness of the URL match: a URL of the shape
base ++ /patch/ ++ digits with a newline-free base parses to exactly
that split. -/
theorem parse_patch_url_append (base ds : String) (hne : ds.data ≠ [])
    (hdig : ∀ c ∈ ds.data, c.isDigit = true) (hbase : '\n' ∉ base.data) :
    parse_patch_url (base ++ "/patch/" ++ ds) = some (base, ds) := by
  have hcs : (base ++ "/patch/" ++ ds).data =
      (base.data ++ ("/patch/").data) ++ ds.data := by
    simp [String.data_append, List.append_assoc]
  have hgl : (base ++ "/patch/" ++ ds).data.getLast? ≠ some '\n' := by
    rw [hcs]
    exact getLast?_append_digits _ ds hne hdig
  simp only [parse_patch_url]
  rw [if_neg hgl, hcs]
  exact parse_body_append base ds hne hdig hbase

/-- Completeness for the trailing newline that Python tolerates: the
same shape followed by one final newline parses to the same split,
the newline left out of both groups. -/
theorem parse_patch_url_append_newline (base ds : String) (hne : ds.data ≠ [])
    (hdig : ∀ c ∈ ds.data, c.isDigit = true) (hbase : '\n' ∉ base.data) :
    parse_patch_url (base ++ "/patch/" ++ ds ++ "\n") = some (base, ds) := by
  have hnd : ("\n" : String).data = ['\n'] := by decide
  have hcs : (base ++ "/patch/" ++ ds ++ "\n").data =
      ((base.data ++ ("/patch/").data) ++ ds.data) ++ ['\n'] := by
    simp [String.data_append, hnd, List.append_assoc]
  have hgl : (base ++ "/patch/" ++ ds ++ "\n").data.getLast? = some '\n' := by
    rw [hcs, ← List.head?_reverse, List.reverse_append]
    simp
  simp only [parse_patch_url]
  rw [if_pos hgl, hcs, List.dropLast_concat]
  exact parse_body_append base ds hne hdig hbase

/-- Soundness of the digit-suffix match on the trimmed text. -/
theorem parse_body_shape (body : List Char) (b d : String)
    (h : parse_patch_url_body body = some (b, d)) :
    body = (b.data ++ ("/patch/").data) ++ d.data ∧ d.data ≠ [] ∧
      (∀ c ∈ d.data, c.isDigit = true) ∧ '\n' ∉ b.data := by
  simp only [parse_patch_url_body] at h
  obtain ⟨R, S, hsplit, hS, hR⟩ :
      ∃ R S, body = R ++ S ∧
        S = (body.reverse.takeWhile Char.isDigit).reverse ∧
        R = (body.reverse.dropWhile Char.isDigit).reverse :=
    ⟨_, _, suffix_decomp Char.isDigit body, rfl, rfl⟩
  rw [← hS] at h
  have hpre : body.take (body.length - S.length) = R := by
    rw [hsplit, List.length_append, Nat.add_sub_cancel]
    exact List.take_left R S
  rw [hpre] at h
  split at h
  case isFalse => exact absurd h (by simp)
  case isTrue hcond =>
    simp only [Option.some.injEq, Prod.mk.injEq] at h
    obtain ⟨hb, hd⟩ := h
    obtain ⟨hne, hlen7, hdrop, hnl⟩ := hcond
    have hbdata : b.data = R.take (R.length - 7) := by rw [← hb]
    have hddata : d.data = S := by rw [← hd]
    have hRsplit : R = b.data ++ ("/patch/").data := by
      conv_lhs => rw [← List.take_append_drop (R.length - 7) R]
      rw [hdrop, hbdata]
    refine ⟨?_, ?_, ?_, ?_⟩
    · rw [hsplit, hRsplit, hddata]
    · rw [hddata]; exact hne
    · intro c hc
      rw [hddata, hS] at hc
      exact List.mem_takeWhile_imp (List.mem_reverse.mp hc)
    · rw [hbdata]; exact hnl

/-- Soundness of the URL match: a successful parse means the URL has
the shape base ++ /patch/ ++ digits, possibly followed by one
trailing newline, with a newline-free base. -/
theorem parse_patch_url_shape (url b d : String)
    (h : parse_patch_url url = some (b, d)) :
    (url = b ++ "/patch/" ++ d ∨ url = b ++ "/patch/" ++ d ++ "\n") ∧
      d.data ≠ [] ∧ (∀ c ∈ d.data, c.isDigit = true) ∧ '\n' ∉ b.data := by
  simp only [parse_patch_url] at h
  by_cases hgl : url.data.getLast? = some '\n'
  · rw [if_pos hgl] at h
    obtain ⟨hbody, hne, hdig, hnl⟩ := parse_body_shape _ b d h
    refine ⟨Or.inr ?_, hne, hdig, hnl⟩
    apply string_eq_of_data
    have hrec : url.data = url.data.dropLast ++ ['\n'] :=
      eq_dropLast_append url.data '\n' hgl
    have hnd : ("\n" : String).data = ['\n'] := by decide
    have hflat : url.data = ((b.data ++ ("/patch/").data) ++ d.data) ++ ['\n'] := by
      conv_lhs => rw [hrec]
      rw [hbody]
    rw [String.data_append, String.data_append, String.data_append, hnd, hflat]
  · rw [if_neg hgl] at h
    obtain ⟨hbody, hne, hdig, hnl⟩ := parse_body_shape _ b d h
    refine ⟨Or.inl ?_, hne, hdig, hnl⟩
    apply string_eq_of_data
    rw [String.data_append, String.data_append]
    exact hbody

theorem go_step_done (env : Env) (pws : List Patchwork) (repo : String)
    (pj : List InFlight) (i : Nat) (c : List Nat) (h : ¬ i < pj.length) :
    check_pending_go env pws repo pj i c = (pj, c, [], none) := by
  rw [check_pending_go]
  simp [h]

theorem go_step_incomplete (env : Env) (pws : List Patchwork) (repo : String)
    (pj : List InFlight) (i : Nat) (c : List Nat) (h : i < pj.length)
    (hc : env.is_build_complete pj[i].2.1 = false) :
    check_pending_go env pws repo pj i c =
      ((check_pending_go env pws repo pj (i + 1) c).1,
       (check_pending_go env pws repo pj (i + 1) c).2.1,
       Event.queryComplete pj[i].2.1 false ::
         (check_pending_go env pws repo pj (i + 1) c).2.2.1,
       (check_pending_go env pws repo pj (i + 1) c).2.2.2) := by
  rw [check_pending_go]
  simp [h, hc]

theorem go_step_error (env : Env) (pws : List Patchwork) (repo : String)
    (pj : List InFlight) (i : Nat) (c : List Nat) (h : i < pj.length)
    (hc : env.is_build_complete pj[i].2.1 = true)
    (hres : env.get_result pj[i].2.1 = TestResult.ERROR) :
    check_pending_go env pws repo pj i c =
      ((check_pending_go env pws repo (pj.erase pj[i]) (i + 1) (c ++ [pj[i].2.1])).1,
       (check_pending_go env pws repo (pj.erase pj[i]) (i + 1) (c ++ [pj[i].2.1])).2.1,
       Event.queryComplete pj[i].2.1 true :: Event.removeJob pj[i].2.1 ::
         (check_pending_go env pws repo (pj.erase pj[i]) (i + 1) (c ++ [pj[i].2.1])).2.2.1,
       (check_pending_go env pws repo (pj.erase pj[i]) (i + 1) (c ++ [pj[i].2.1])).2.2.2) := by
  rw [check_pending_go]
  simp [h, hc, hres]

theorem go_step_baseline (env : Env) (pws : List Patchwork) (repo : String)
    (pj : List InFlight) (i : Nat) (c : List Nat) (h : i < pj.length)
    (hc : env.is_build_complete pj[i].2.1 = true)
    (hres : env.get_result pj[i].2.1 ≠ TestResult.ERROR)
    (hty : pj[i].1 = JobType.BASELINE) :
    check_pending_go env pws repo pj i c =
      ((check_pending_go env pws repo (pj.erase pj[i]) (i + 1) (c ++ [pj[i].2.1])).1,
       (check_pending_go env pws repo (pj.erase pj[i]) (i + 1) (c ++ [pj[i].2.1])).2.1,
       Event.queryComplete pj[i].2.1 true :: Event.removeJob pj[i].2.1 ::
         Event.updateBaseline repo (env.get_base_hash pj[i].2.1)
           (env.get_base_commitdate pj[i].2.1) (env.get_result pj[i].2.1) pj[i].2.1 ::
         (check_pending_go env pws repo (pj.erase pj[i]) (i + 1) (c ++ [pj[i].2.1])).2.2.1,
       (check_pending_go env pws repo (pj.erase pj[i]) (i + 1) (c ++ [pj[i].2.1])).2.2.2) := by
  rw [check_pending_go]
  simp [h, hc, hres, hty]

theorem go_step_pw_err (env : Env) (pws : List Patchwork) (repo : String)
    (pj : List InFlight) (i : Nat) (c : List Nat) (h : i < pj.length)
    (hc : env.is_build_complete pj[i].2.1 = true)
    (hres : env.get_result pj[i].2.1 ≠ TestResult.ERROR)
    (hty : pj[i].1 = JobType.PATCHWORK) (msg : String)
    (hrj : resolve_job pws pj[i].2.2 (env.get_patch_url_list pj[i].2.1) = .error msg) :
    check_pending_go env pws repo pj i c =
      (pj.erase pj[i], c ++ [pj[i].2.1],
       [Event.queryComplete pj[i].2.1 true, Event.removeJob pj[i].2.1], some msg) := by
  rw [check_pending_go]
  simp [h, hc, hres, hty, hrj]

theorem go_step_pw_ok (env : Env) (pws : List Patchwork) (repo : String)
    (pj : List InFlight) (i : Nat) (c : List Nat) (h : i < pj.length)
    (hc : env.is_build_complete pj[i].2.1 = true)
    (hres : env.get_result pj[i].2.1 ≠ TestResult.ERROR)
    (hty : pj[i].1 = JobType.PATCHWORK) (ps : List PatchInfo)
    (hrj : resolve_job pws pj[i].2.2 (env.get_patch_url_list pj[i].2.1) = .ok ps) :
    check_pending_go env pws repo pj i c =
      ((check_pending_go env pws repo (pj.erase pj[i]) (i + 1) (c ++ [pj[i].2.1])).1,
       (check_pending_go env pws repo (pj.erase pj[i]) (i + 1) (c ++ [pj[i].2.1])).2.1,
       Event.queryComplete pj[i].2.1 true :: Event.removeJob pj[i].2.1 ::
         Event.commitTested pj[i].2.1 ps ::
         (check_pending_go env pws repo (pj.erase pj[i]) (i + 1) (c ++ [pj[i].2.1])).2.2.1,
       (check_pending_go env pws repo (pj.erase pj[i]) (i + 1) (c ++ [pj[i].2.1])).2.2.2) := by
  rw [check_pending_go]
  simp [h, hc, hres, hty, hrj]



theorem go_pj_sublist (env : Env) (pws : List Patchwork) (repo : String)
    (pj : List InFlight) (i : Nat) (c : List Nat) :
    List.Sublist (check_pending_go env pws repo pj i c).1 pj := by
  induction pj, i, c using check_pending_go.induct env pws repo with
  | case1 pj i c h hc hres ih =>
    rw [go_step_error env pws repo pj i c h hc hres]
    exact ih.trans (List.erase_sublist _ _)
  | case2 pj i c h hc hres hty ih =>
    rw [go_step_baseline env pws repo pj i c h hc hres hty]
    exact ih.trans (List.erase_sublist _ _)
  | case3 pj i c h hc hres hty msg hrj =>
    rw [go_step_pw_err env pws repo pj i c h hc hres hty msg hrj]
    exact List.erase_sublist _ _
  | case4 pj i c h hc hres hty ps hrj ih =>
    rw [go_step_pw_ok env pws repo pj i c h hc hres hty ps hrj]
    exact ih.trans (List.erase_sublist _ _)
  | case5 pj i c h hc ih =>
    rw [go_step_incomplete env pws repo pj i c h (by simpa using hc)]
    exact ih
  | case6 pj i c h =>
    rw [go_step_done env pws repo pj i c h]



theorem erase_bid_not_mem (pj : List InFlight) (hn : (pj.map bidOf).Nodup)
    (e : InFlight) (he : e ∈ pj) : bidOf e ∉ (pj.erase e).map bidOf := by
  induction pj with
  | nil => simp at he
  | cons a t ih =>
    rw [List.erase_cons]
    by_cases hae : a = e
    · rw [if_pos (by simp [hae])]
      subst hae
      have := (List.nodup_cons.mp (by simpa only [List.map_cons] using hn)).1
      simpa using this
    · rw [if_neg (by simp [hae])]
      have het : e ∈ t := by
        rcases List.mem_cons.mp he with rfl | het
        · exact absurd rfl hae
        · exact het
      have hn2 : (t.map bidOf).Nodup := (List.nodup_cons.mp (by simpa only [List.map_cons] using hn)).2
      have hna : bidOf a ∉ t.map bidOf := (List.nodup_cons.mp (by simpa only [List.map_cons] using hn)).1
      simp only [List.map_cons, List.mem_cons]
      rintro (hba | hmem)
      · exact hna (hba ▸ List.mem_map.mpr ⟨e, het, rfl⟩)
      · exact ih hn2 het hmem

theorem go_completed_spec (env : Env) (pws : List Patchwork) (repo : String)
    (pj : List InFlight) (i : Nat) (c : List Nat) :
    ∃ ds, (check_pending_go env pws repo pj i c).2.1 = c ++ ds ∧
      ∀ b ∈ ds, ∃ e ∈ pj, bidOf e = b := by
  induction pj, i, c using check_pending_go.induct env pws repo with
  | case1 pj i c h hc hres ih =>
    rw [go_step_error env pws repo pj i c h hc hres]
    obtain ⟨ds, hds, hmem⟩ := ih
    refine ⟨pj[i].2.1 :: ds, by simpa using hds, ?_⟩
    intro b hb
    rcases List.mem_cons.mp hb with rfl | hb
    · exact ⟨pj[i], List.getElem_mem h, rfl⟩
    · obtain ⟨e2, he2, hbe⟩ := hmem b hb
      exact ⟨e2, (List.erase_sublist _ _).subset he2, hbe⟩
  | case2 pj i c h hc hres hty ih =>
    rw [go_step_baseline env pws repo pj i c h hc hres hty]
    obtain ⟨ds, hds, hmem⟩ := ih
    refine ⟨pj[i].2.1 :: ds, by simpa using hds, ?_⟩
    intro b hb
    rcases List.mem_cons.mp hb with rfl | hb
    · exact ⟨pj[i], List.getElem_mem h, rfl⟩
    · obtain ⟨e2, he2, hbe⟩ := hmem b hb
      exact ⟨e2, (List.erase_sublist _ _).subset he2, hbe⟩
  | case3 pj i c h hc hres hty msg hrj =>
    rw [go_step_pw_err env pws repo pj i c h hc hres hty msg hrj]
    exact ⟨[pj[i].2.1], rfl, fun b hb => by
      rcases List.mem_singleton.mp hb with rfl
      exact ⟨pj[i], List.getElem_mem h, rfl⟩⟩
  | case4 pj i c h hc hres hty ps hrj ih =>
    rw [go_step_pw_ok env pws repo pj i c h hc hres hty ps hrj]
    obtain ⟨ds, hds, hmem⟩ := ih
    refine ⟨pj[i].2.1 :: ds, by simpa using hds, ?_⟩
    intro b hb
    rcases List.mem_cons.mp hb with rfl | hb
    · exact ⟨pj[i], List.getElem_mem h, rfl⟩
    · obtain ⟨e2, he2, hbe⟩ := hmem b hb
      exact ⟨e2, (List.erase_sublist _ _).subset he2, hbe⟩
  | case5 pj i c h hc ih =>
    rw [go_step_incomplete env pws repo pj i c h (by simpa using hc)]
    exact ih
  | case6 pj i c h =>
    rw [go_step_done env pws repo pj i c h]
    exact ⟨[], by simp, by simp⟩

theorem go_disjoint (env : Env) (pws : List Patchwork) (repo : String)
    (pj : List InFlight) (i : Nat) (c : List Nat)
    (hn : (pj.map bidOf).Nodup) (hd : ∀ b ∈ c, b ∉ pj.map bidOf) :
    ∀ b ∈ (check_pending_go env pws repo pj i c).2.1,
      b ∉ ((check_pending_go env pws repo pj i c).1.map bidOf) := by
  induction pj, i, c using check_pending_go.induct env pws repo with
  | case1 pj i c h hc hres ih =>
    rw [go_step_error env pws repo pj i c h hc hres]
    apply ih
    · exact hn.sublist ((List.erase_sublist _ _).map bidOf)
    · intro b hb
      rcases List.mem_append.mp hb with hb | hb
      · intro hmem
        exact hd b hb (((List.erase_sublist _ _).map bidOf).subset hmem)
      · rcases List.mem_singleton.mp hb with rfl
        exact erase_bid_not_mem pj hn pj[i] (List.getElem_mem h)
  | case2 pj i c h hc hres hty ih =>
    rw [go_step_baseline env pws repo pj i c h hc hres hty]
    apply ih
    · exact hn.sublist ((List.erase_sublist _ _).map bidOf)
    · intro b hb
      rcases List.mem_append.mp hb with hb | hb
      · intro hmem
        exact hd b hb (((List.erase_sublist _ _).map bidOf).subset hmem)
      · rcases List.mem_singleton.mp hb with rfl
        exact erase_bid_not_mem pj hn pj[i] (List.getElem_mem h)
  | case3 pj i c h hc hres hty msg hrj =>
    rw [go_step_pw_err env pws repo pj i c h hc hres hty msg hrj]
    intro b hb
    rcases List.mem_append.mp hb with hb | hb
    · intro hmem
      exact hd b hb (((List.erase_sublist _ _).map bidOf).subset hmem)
    · rcases List.mem_singleton.mp hb with rfl
      exact erase_bid_not_mem pj hn pj[i] (List.getElem_mem h)
  | case4 pj i c h hc hres hty ps hrj ih =>
    rw [go_step_pw_ok env pws repo pj i c h hc hres hty ps hrj]
    apply ih
    · exact hn.sublist ((List.erase_sublist _ _).map bidOf)
    · intro b hb
      rcases List.mem_append.mp hb with hb | hb
      · intro hmem
        exact hd b hb (((List.erase_sublist _ _).map bidOf).subset hmem)
      · rcases List.mem_singleton.mp hb with rfl
        exact erase_bid_not_mem pj hn pj[i] (List.getElem_mem h)
  | case5 pj i c h hc ih =>
    rw [go_step_incomplete env pws repo pj i c h (by simpa using hc)]
    exact ih hn hd
  | case6 pj i c h =>
    rw [go_step_done env pws repo pj i c h]
    exact hd





theorem rbm_nil : RemBeforeMut [] := by
  intro i ev b hi
  simp at hi

theorem rbm_append (t1 t2 : List Event) (h1 : RemBeforeMut t1)
    (h2 : RemBeforeMut t2) : RemBeforeMut (t1 ++ t2) := by
  intro i ev b hi hm
  by_cases hlt : i < t1.length
  · rw [List.getElem?_append_left hlt] at hi
    obtain ⟨j, hj, hjv⟩ := h1 i ev b hi hm
    refine ⟨j, hj, ?_⟩
    rw [List.getElem?_append_left (by omega)]
    exact hjv
  · rw [List.getElem?_append_right (by omega)] at hi
    obtain ⟨j, hj, hjv⟩ := h2 (i - t1.length) ev b hi hm
    refine ⟨t1.length + j, by omega, ?_⟩
    rw [List.getElem?_append_right (by omega)]
    simpa using hjv

theorem rbm_cons_nonmut (ev : Event) (tr : List Event)
    (hev : ∀ b, isMutFor b ev = false) (h : RemBeforeMut tr) :
    RemBeforeMut (ev :: tr) := by
  intro i ev2 b hi hm
  match i with
  | 0 =>
    simp at hi
    rw [← hi] at hm
    rw [hev b] at hm
    exact absurd hm (by simp)
  | (n + 1) =>
    simp only [List.getElem?_cons_succ] at hi
    obtain ⟨j, hj, hjv⟩ := h n ev2 b hi hm
    exact ⟨j + 1, by omega, by simpa using hjv⟩

theorem go_rbm (env : Env) (pws : List Patchwork) (repo : String)
    (pj : List InFlight) (i : Nat) (c : List Nat) :
    RemBeforeMut (check_pending_go env pws repo pj i c).2.2.1 := by
  induction pj, i, c using check_pending_go.induct env pws repo with
  | case1 pj i c h hc hres ih =>
    rw [go_step_error env pws repo pj i c h hc hres]
    exact rbm_cons_nonmut _ _ (fun b => rfl)
      (rbm_cons_nonmut _ _ (fun b => rfl) ih)
  | case2 pj i c h hc hres hty ih =>
    rw [go_step_baseline env pws repo pj i c h hc hres hty]
    refine rbm_cons_nonmut _ _ (fun b => rfl) ?_
    intro j ev b hj hm
    match j with
    | 0 =>
      simp at hj
      rw [← hj] at hm
      exact absurd hm (by simp [isMutFor])
    | 1 =>
      simp only [List.getElem?_cons_succ, List.getElem?_cons_zero] at hj
      have hb : pj[i].2.1 = b := by
        obtain rfl := Option.some.inj hj
        simpa [isMutFor] using hm
      exact ⟨0, by omega, by simp [hb]⟩
    | (n + 2) =>
      simp only [List.getElem?_cons_succ] at hj
      obtain ⟨j2, hj2, hj2v⟩ := ih n ev b hj hm
      exact ⟨j2 + 2, by omega, by simpa using hj2v⟩
  | case3 pj i c h hc hres hty msg hrj =>
    rw [go_step_pw_err env pws repo pj i c h hc hres hty msg hrj]
    exact rbm_cons_nonmut _ _ (fun b => rfl)
      (rbm_cons_nonmut _ _ (fun b => rfl) rbm_nil)
  | case4 pj i c h hc hres hty ps hrj ih =>
    rw [go_step_pw_ok env pws repo pj i c h hc hres hty ps hrj]
    refine rbm_cons_nonmut _ _ (fun b => rfl) ?_
    intro j ev b hj hm
    match j with
    | 0 =>
      simp at hj
      rw [← hj] at hm
      exact absurd hm (by simp [isMutFor])
    | 1 =>
      simp only [List.getElem?_cons_succ, List.getElem?_cons_zero] at hj
      have hb : pj[i].2.1 = b := by
        obtain rfl := Option.some.inj hj
        simpa [isMutFor] using hm
      exact ⟨0, by omega, by simp [hb]⟩
    | (n + 2) =>
      simp only [List.getElem?_cons_succ] at hj
      obtain ⟨j2, hj2, hj2v⟩ := ih n ev b hj hm
      exact ⟨j2 + 2, by omega, by simpa using hj2v⟩
  | case5 pj i c h hc ih =>
    rw [go_step_incomplete env pws repo pj i c h (by simpa using hc)]
    exact rbm_cons_nonmut _ _ (fun b => rfl) ih
  | case6 pj i c h =>
    rw [go_step_done env pws repo pj i c h]
    exact rbm_nil



theorem go_no_mut_of_error (env : Env) (pws : List Patchwork) (repo : String)
    (pj : List InFlight) (i : Nat) (c : List Nat) (b : Nat)
    (hb : env.get_result b = TestResult.ERROR) :
    ∀ ev ∈ (check_pending_go env pws repo pj i c).2.2.1, isMutFor b ev = false := by
  induction pj, i, c using check_pending_go.induct env pws repo with
  | case1 pj i c h hc hres ih =>
    rw [go_step_error env pws repo pj i c h hc hres]
    intro ev hev
    rcases List.mem_cons.mp hev with rfl | hev
    · rfl
    rcases List.mem_cons.mp hev with rfl | hev
    · rfl
    exact ih ev hev
  | case2 pj i c h hc hres hty ih =>
    rw [go_step_baseline env pws repo pj i c h hc hres hty]
    intro ev hev
    rcases List.mem_cons.mp hev with rfl | hev
    · rfl
    rcases List.mem_cons.mp hev with rfl | hev
    · rfl
    rcases List.mem_cons.mp hev with rfl | hev
    · have : pj[i].2.1 ≠ b := fun hbb => hres (hbb ▸ hb)
      simpa [isMutFor] using this
    exact ih ev hev
  | case3 pj i c h hc hres hty msg hrj =>
    rw [go_step_pw_err env pws repo pj i c h hc hres hty msg hrj]
    intro ev hev
    rcases List.mem_cons.mp hev with rfl | hev
    · rfl
    rcases List.mem_singleton.mp hev with rfl
    rfl
  | case4 pj i c h hc hres hty ps hrj ih =>
    rw [go_step_pw_ok env pws repo pj i c h hc hres hty ps hrj]
    intro ev hev
    rcases List.mem_cons.mp hev with rfl | hev
    · rfl
    rcases List.mem_cons.mp hev with rfl | hev
    · rfl
    rcases List.mem_cons.mp hev with rfl | hev
    · have : pj[i].2.1 ≠ b := fun hbb => hres (hbb ▸ hb)
      simpa [isMutFor] using this
    exact ih ev hev
  | case5 pj i c h hc ih =>
    rw [go_step_incomplete env pws repo pj i c h (by simpa using hc)]
    intro ev hev
    rcases List.mem_cons.mp hev with rfl | hev
    · rfl
    exact ih ev hev
  | case6 pj i c h =>
    rw [go_step_done env pws repo pj i c h]
    intro ev hev
    simp at hev

theorem go_query_remove (env : Env) (pws : List Patchwork) (repo : String)
    (pj : List InFlight) (i : Nat) (c : List Nat) (b : Nat)
    (hq : Event.queryComplete b true ∈ (check_pending_go env pws repo pj i c).2.2.1) :
    Event.removeJob b ∈ (check_pending_go env pws repo pj i c).2.2.1 := by
  induction pj, i, c using check_pending_go.induct env pws repo with
  | case1 pj i c h hc hres ih =>
    rw [go_step_error env pws repo pj i c h hc hres] at hq ⊢
    rcases List.mem_cons.mp hq with heq | hq
    · obtain ⟨hb, -⟩ := Event.queryComplete.inj heq.symm
      simp [hb]
    rcases List.mem_cons.mp hq with heq | hq
    · exact absurd heq.symm (by simp)
    · simp [ih hq]
  | case2 pj i c h hc hres hty ih =>
    rw [go_step_baseline env pws repo pj i c h hc hres hty] at hq ⊢
    rcases List.mem_cons.mp hq with heq | hq
    · obtain ⟨hb, -⟩ := Event.queryComplete.inj heq.symm
      simp [hb]
    rcases List.mem_cons.mp hq with heq | hq
    · exact absurd heq.symm (by simp)
    rcases List.mem_cons.mp hq with heq | hq
    · exact absurd heq.symm (by simp)
    · simp [ih hq]
  | case3 pj i c h hc hres hty msg hrj =>
    rw [go_step_pw_err env pws repo pj i c h hc hres hty msg hrj] at hq ⊢
    rcases List.mem_cons.mp hq with heq | hq
    · obtain ⟨hb, -⟩ := Event.queryComplete.inj heq.symm
      simp [hb]
    rcases List.mem_singleton.mp hq with heq
    exact absurd heq.symm (by simp)
  | case4 pj i c h hc hres hty ps hrj ih =>
    rw [go_step_pw_ok env pws repo pj i c h hc hres hty ps hrj] at hq ⊢
    rcases List.mem_cons.mp hq with heq | hq
    · obtain ⟨hb, -⟩ := Event.queryComplete.inj heq.symm
      simp [hb]
    rcases List.mem_cons.mp hq with heq | hq
    · exact absurd heq.symm (by simp)
    rcases List.mem_cons.mp hq with heq | hq
    · exact absurd heq.symm (by simp)
    · simp [ih hq]
  | case5 pj i c h hc ih =>
    rw [go_step_incomplete env pws repo pj i c h (by simpa using hc)] at hq ⊢
    rcases List.mem_cons.mp hq with heq | hq
    · obtain ⟨-, hb⟩ := Event.queryComplete.inj heq.symm
      exact absurd hb (by simp)
    · simp [ih hq]
  | case6 pj i c h =>
    rw [go_step_done env pws repo pj i c h] at hq
    simp at hq

theorem go_removed_gone (env : Env) (pws : List Patchwork) (repo : String)
    (pj : List InFlight) (i : Nat) (c : List Nat) (b : Nat)
    (hn : (pj.map bidOf).Nodup)
    (hr : Event.removeJob b ∈ (check_pending_go env pws repo pj i c).2.2.1) :
    b ∉ (check_pending_go env pws repo pj i c).1.map bidOf := by
  induction pj, i, c using check_pending_go.induct env pws repo with
  | case1 pj i c h hc hres ih =>
    rw [go_step_error env pws repo pj i c h hc hres] at hr ⊢
    have hn1 : ((pj.erase pj[i]).map bidOf).Nodup :=
      hn.sublist ((List.erase_sublist _ _).map bidOf)
    rcases List.mem_cons.mp hr with heq | hr
    · exact absurd heq.symm (by simp)
    rcases List.mem_cons.mp hr with heq | hr
    · obtain rfl := Event.removeJob.inj heq.symm
      intro hmem
      exact erase_bid_not_mem pj hn pj[i] (List.getElem_mem h)
        (((go_pj_sublist env pws repo _ _ _).map bidOf).subset hmem)
    · exact ih hn1 hr
  | case2 pj i c h hc hres hty ih =>
    rw [go_step_baseline env pws repo pj i c h hc hres hty] at hr ⊢
    have hn1 : ((pj.erase pj[i]).map bidOf).Nodup :=
      hn.sublist ((List.erase_sublist _ _).map bidOf)
    rcases List.mem_cons.mp hr with heq | hr
    · exact absurd heq.symm (by simp)
    rcases List.mem_cons.mp hr with heq | hr
    · obtain rfl := Event.removeJob.inj heq.symm
      intro hmem
      exact erase_bid_not_mem pj hn pj[i] (List.getElem_mem h)
        (((go_pj_sublist env pws repo _ _ _).map bidOf).subset hmem)
    rcases List.mem_cons.mp hr with heq | hr
    · exact absurd heq.symm (by simp)
    · exact ih hn1 hr
  | case3 pj i c h hc hres hty msg hrj =>
    rw [go_step_pw_err env pws repo pj i c h hc hres hty msg hrj] at hr ⊢
    rcases List.mem_cons.mp hr with heq | hr
    · exact absurd heq.symm (by simp)
    rcases List.mem_singleton.mp hr with heq
    obtain rfl := Event.removeJob.inj heq.symm
    exact erase_bid_not_mem pj hn pj[i] (List.getElem_mem h)
  | case4 pj i c h hc hres hty ps hrj ih =>
    rw [go_step_pw_ok env pws repo pj i c h hc hres hty ps hrj] at hr ⊢
    have hn1 : ((pj.erase pj[i]).map bidOf).Nodup :=
      hn.sublist ((List.erase_sublist _ _).map bidOf)
    rcases List.mem_cons.mp hr with heq | hr
    · exact absurd heq.symm (by simp)
    rcases List.mem_cons.mp hr with heq | hr
    · obtain rfl := Event.removeJob.inj heq.symm
      intro hmem
      exact erase_bid_not_mem pj hn pj[i] (List.getElem_mem h)
        (((go_pj_sublist env pws repo _ _ _).map bidOf).subset hmem)
    rcases List.mem_cons.mp hr with heq | hr
    · exact absurd heq.symm (by simp)
    · exact ih hn1 hr
  | case5 pj i c h hc ih =>
    rw [go_step_incomplete env pws repo pj i c h (by simpa using hc)] at hr ⊢
    rcases List.mem_cons.mp hr with heq | hr
    · exact absurd heq.symm (by simp)
    · exact ih hn hr
  | case6 pj i c h =>
    rw [go_step_done env pws repo pj i c h] at hr
    simp at hr

theorem go_commitTested_resolved (env : Env) (pws : List Patchwork) (repo : String)
    (pj : List InFlight) (i : Nat) (c : List Nat) (b : Nat) (ps : List PatchInfo)
    (hm : Event.commitTested b ps ∈ (check_pending_go env pws repo pj i c).2.2.1) :
    ∃ cpw, resolve_job pws cpw (env.get_patch_url_list b) = .ok ps := by
  induction pj, i, c using check_pending_go.induct env pws repo with
  | case1 pj i c h hc hres ih =>
    rw [go_step_error env pws repo pj i c h hc hres] at hm
    rcases List.mem_cons.mp hm with heq | hm
    · exact absurd heq (by simp)
    rcases List.mem_cons.mp hm with heq | hm
    · exact absurd heq (by simp)
    · exact ih hm
  | case2 pj i c h hc hres hty ih =>
    rw [go_step_baseline env pws repo pj i c h hc hres hty] at hm
    rcases List.mem_cons.mp hm with heq | hm
    · exact absurd heq (by simp)
    rcases List.mem_cons.mp hm with heq | hm
    · exact absurd heq (by simp)
    rcases List.mem_cons.mp hm with heq | hm
    · exact absurd heq (by simp)
    · exact ih hm
  | case3 pj i c h hc hres hty msg hrj =>
    rw [go_step_pw_err env pws repo pj i c h hc hres hty msg hrj] at hm
    rcases List.mem_cons.mp hm with heq | hm
    · exact absurd heq (by simp)
    rcases List.mem_singleton.mp hm with heq
    exact absurd heq (by simp)
  | case4 pj i c h hc hres hty ps2 hrj ih =>
    rw [go_step_pw_ok env pws repo pj i c h hc hres hty ps2 hrj] at hm
    rcases List.mem_cons.mp hm with heq | hm
    · exact absurd heq (by simp)
    rcases List.mem_cons.mp hm with heq | hm
    · exact absurd heq (by simp)
    rcases List.mem_cons.mp hm with heq | hm
    · obtain ⟨hb, hps⟩ := Event.commitTested.inj heq
      exact ⟨pj[i].2.2, by rw [hb, hps]; exact hrj⟩
    · exact ih hm
  | case5 pj i c h hc ih =>
    rw [go_step_incomplete env pws repo pj i c h (by simpa using hc)] at hm
    rcases List.mem_cons.mp hm with heq | hm
    · exact absurd heq (by simp)
    · exact ih hm
  | case6 pj i c h =>
    rw [go_step_done env pws repo pj i c h] at hm
    simp at hm




theorem drop_loop_events (interface : Patchwork) (l : List SeriesSummary) :
    ∀ ev ∈ (drop_loop interface l).1, ∃ ps, ev = Event.commitSeries ps := by
  induction l with
  | nil => simp [drop_loop]
  | cons s rest ih =>
    intro ev hev
    rw [drop_loop] at hev
    rcases hres : resolve_urls interface s.patch_urls with e | ps
    · rw [hres] at hev
      simp at hev
    · rw [hres] at hev
      simp only at hev
      rcases List.mem_cons.mp hev with rfl | hev
      · exact ⟨ps, rfl⟩
      · exact ih ev hev

theorem submit_loop_events (pwIdx : Nat) (interface : Patchwork)
    (l : List SeriesSummary) (st : WatcherState) :
    ∀ ev ∈ (submit_loop pwIdx interface l st).2,
      (∃ bid s, ev = Event.submitBuild bid s) ∨
      (∃ bu pid s, ev = Event.setPatchsetPending bu pid s) := by
  induction l generalizing st with
  | nil => simp [submit_loop]
  | cons s rest ih =>
    intro ev hev
    rw [submit_loop] at hev
    simp only at hev
    rcases List.mem_cons.mp hev with rfl | hev
    · exact Or.inl ⟨_, _, rfl⟩
    rcases List.mem_cons.mp hev with rfl | hev
    · exact Or.inr ⟨_, _, _, rfl⟩
    · exact ih _ ev hev

theorem submit_loop_pend_after_submit (pwIdx : Nat) (interface : Patchwork)
    (l : List SeriesSummary) (st : WatcherState) :
    ∀ (i : Nat) (bu : String) (pid : Nat) (s : SeriesSummary),
      (submit_loop pwIdx interface l st).2[i]? =
        some (Event.setPatchsetPending bu pid s) →
      ∃ j bid, j < i ∧
        (submit_loop pwIdx interface l st).2[j]? = some (Event.submitBuild bid s) := by
  induction l generalizing st with
  | nil =>
    intro i bu pid s hi
    simp [submit_loop] at hi
  | cons s0 rest ih =>
    intro i bu pid s hi
    rw [submit_loop] at hi ⊢
    simp only at hi ⊢
    match i with
    | 0 =>
      simp at hi
    | 1 =>
      simp only [List.getElem?_cons_succ, List.getElem?_cons_zero,
        Option.some.injEq] at hi
      obtain ⟨-, -, hs⟩ := Event.setPatchsetPending.inj hi
      exact ⟨0, st.nextBuild, by omega, by simp [hs]⟩
    | (n + 2) =>
      simp only [List.getElem?_cons_succ] at hi
      obtain ⟨j, bid, hj, hjv⟩ := ih _ n bu pid s hi
      exact ⟨j + 2, bid, by omega, by simpa using hjv⟩

theorem submit_loop_state (pwIdx : Nat) (interface : Patchwork)
    (l : List SeriesSummary) (st : WatcherState) :
    (submit_loop pwIdx interface l st).1.completed = st.completed ∧
    st.nextBuild ≤ (submit_loop pwIdx interface l st).1.nextBuild ∧
    ∀ e ∈ (submit_loop pwIdx interface l st).1.pj,
      e ∈ st.pj ∨ (st.nextBuild ≤ bidOf e ∧
        bidOf e < (submit_loop pwIdx interface l st).1.nextBuild) := by
  induction l generalizing st with
  | nil => exact ⟨rfl, le_refl _, fun e he => Or.inl he⟩
  | cons s rest ih =>
    rw [submit_loop]
    simp only
    obtain ⟨hc, hn, hp⟩ := ih
      { st with pj := st.pj ++ [(JobType.PATCHWORK, st.nextBuild, some pwIdx)]
                nextBuild := st.nextBuild + 1 }
    dsimp only at hc hn hp
    refine ⟨hc, by omega, ?_⟩
    intro e he
    rcases hp e he with hin | ⟨hlo, hhi⟩
    · rcases List.mem_append.mp hin with hin | hin
      · exact Or.inl hin
      · rcases List.mem_singleton.mp hin with rfl
        refine Or.inr ⟨by simp [bidOf], ?_⟩
        simp only [bidOf]
        omega
    · exact Or.inr ⟨by omega, hhi⟩

theorem submit_loop_inv (pwIdx : Nat) (interface : Patchwork)
    (l : List SeriesSummary) (st : WatcherState) (hinv : InvS st) :
    InvS (submit_loop pwIdx interface l st).1 := by
  induction l generalizing st with
  | nil => exact hinv
  | cons s rest ih =>
    rw [submit_loop]
    simp only
    apply ih
    obtain ⟨h1, h2, h3, h4⟩ := hinv
    refine ⟨?_, ?_, ?_, ?_⟩
    · rw [List.map_append]
      simp only [List.map_cons, List.map_nil]
      rw [List.nodup_append]
      refine ⟨h1, by simp, ?_⟩
      intro b hb hb2
      rcases List.mem_map.mp hb with ⟨e, he, rfl⟩
      have := h2 e he
      simp only [List.mem_singleton] at hb2
      simp only [bidOf] at hb2 this
      omega
    · intro e he
      dsimp only
      rcases List.mem_append.mp he with he | he
      · have := h2 e he
        omega
      · rcases List.mem_singleton.mp he with rfl
        simp [bidOf]
    · intro b hb
      have := h3 b hb
      dsimp only
      omega
    · intro b hb
      rw [List.map_append]
      intro hmem
      rcases List.mem_append.mp hmem with hmem | hmem
      · exact h4 b hb hmem
      · simp only [List.map_cons, List.map_nil, List.mem_singleton, bidOf] at hmem
        have := h3 b hb
        omega



theorem process_pw_trace_split (env : Env) (pwIdx : Nat) (interface : Patchwork)
    (st : WatcherState) :
    ∃ d sub, (process_pw env pwIdx interface st).2.1 = d ++ sub ∧
      (∀ ev ∈ d, ∃ ps, ev = Event.commitSeries ps) ∧
      (∀ ev ∈ sub, (∃ bid s, ev = Event.submitBuild bid s) ∨
        (∃ bu pid s, ev = Event.setPatchsetPending bu pid s)) ∧
      (∀ (i : Nat) (bu : String) (pid : Nat) (s : SeriesSummary),
        sub[i]? = some (Event.setPatchsetPending bu pid s) →
        ∃ j bid, j < i ∧ sub[j]? = some (Event.submitBuild bid s)) := by
  rcases hf : filter_patchsets env.patch_filter env.run interface.new_patchsets with e | p
  · refine ⟨[], [], by simp [process_pw, hf], by simp, by simp, by simp⟩
  · obtain ⟨ready, dropped⟩ := p
    rcases hdl : drop_loop interface dropped with ⟨tr1, err⟩
    have htr1 : ∀ ev ∈ tr1, ∃ ps, ev = Event.commitSeries ps := by
      intro ev hev
      apply drop_loop_events interface dropped
      rw [hdl]
      exact hev
    cases err with
    | some e =>
      refine ⟨tr1, [], by simp [process_pw, hf, hdl], htr1, by simp, by simp⟩
    | none =>
      refine ⟨tr1,
        (submit_loop pwIdx interface
          (ready ++ interface.get_patchsets
            (env.get_expired_pending interface.baseurl interface.project_id 43200)) st).2,
        by simp [process_pw, hf, hdl], htr1,
        submit_loop_events pwIdx interface _ st,
        submit_loop_pend_after_submit pwIdx interface _ st⟩

theorem process_pw_state (env : Env) (pwIdx : Nat) (interface : Patchwork)
    (st : WatcherState) (hinv : InvS st) :
    InvS (process_pw env pwIdx interface st).1 ∧
    (process_pw env pwIdx interface st).1.completed = st.completed := by
  rcases hf : filter_patchsets env.patch_filter env.run interface.new_patchsets with e | p
  · simp only [process_pw, hf]
    exact ⟨hinv, trivial⟩
  · obtain ⟨ready, dropped⟩ := p
    rcases hdl : drop_loop interface dropped with ⟨tr1, err⟩
    cases err with
    | some e =>
      simp only [process_pw, hf, hdl]
      exact ⟨hinv, trivial⟩
    | none =>
      simp only [process_pw, hf, hdl]
      exact ⟨submit_loop_inv _ _ _ _ hinv, (submit_loop_state _ _ _ _).1⟩

theorem check_patchwork_go_state (env : Env) (k : Nat) (pws2 : List Patchwork)
    (st : WatcherState) (hinv : InvS st) :
    InvS (check_patchwork_go env k pws2 st).1 ∧
    (check_patchwork_go env k pws2 st).1.completed = st.completed := by
  induction pws2 generalizing k st with
  | nil => exact ⟨hinv, rfl⟩
  | cons interface rest ih =>
    rw [check_patchwork_go]
    rcases hp : process_pw env k interface st with ⟨st1, tr1, err⟩
    have hps := process_pw_state env k interface st hinv
    rw [hp] at hps
    simp only at hps
    cases err with
    | some e =>
      simp only
      exact hps
    | none =>
      simp only
      obtain ⟨h1, h2⟩ := ih (k + 1) st1 hps.1
      exact ⟨h1, by rw [h2, hps.2]⟩

theorem check_patchwork_go_events (env : Env) (k : Nat) (pws2 : List Patchwork)
    (st : WatcherState) :
    ∀ ev ∈ (check_patchwork_go env k pws2 st).2.1,
      (∃ ps, ev = Event.commitSeries ps) ∨
      (∃ bid s, ev = Event.submitBuild bid s) ∨
      (∃ bu pid s, ev = Event.setPatchsetPending bu pid s) := by
  induction pws2 generalizing k st with
  | nil =>
    intro ev hev
    simp [check_patchwork_go] at hev
  | cons interface rest ih =>
    intro ev hev
    rw [check_patchwork_go] at hev
    obtain ⟨d, sub, hsplit, hd, hsub, -⟩ := process_pw_trace_split env k interface st
    rcases hp : process_pw env k interface st with ⟨st1, tr1, err⟩
    rw [hp] at hsplit hev
    simp only at hsplit hev
    cases err with
    | some e =>
      simp only at hev
      rw [hsplit] at hev
      rcases List.mem_append.mp hev with hev | hev
      · exact Or.inl (hd ev hev)
      · rcases hsub ev hev with h | h
        · exact Or.inr (Or.inl h)
        · exact Or.inr (Or.inr h)
    | none =>
      simp only at hev
      rcases List.mem_append.mp hev with hev | hev
      · rw [hsplit] at hev
        rcases List.mem_append.mp hev with hev | hev
        · exact Or.inl (hd ev hev)
        · rcases hsub ev hev with h | h
          · exact Or.inr (Or.inl h)
          · exact Or.inr (Or.inr h)
      · exact ih (k + 1) st1 ev hev



theorem check_pending_state (env : Env) (pws : List Patchwork) (repo : String)
    (st : WatcherState) (hinv : InvS st) :
    InvS (check_pending env pws repo st).1 ∧
    ∀ b ∈ st.completed, b ∈ (check_pending env pws repo st).1.completed := by
  obtain ⟨h1, h2, h3, h4⟩ := hinv
  obtain ⟨ds, hds, hdmem⟩ := go_completed_spec env pws repo st.pj 0 st.completed
  have hsub := go_pj_sublist env pws repo st.pj 0 st.completed
  refine ⟨⟨?_, ?_, ?_, ?_⟩, ?_⟩
  · exact h1.sublist (hsub.map bidOf)
  · intro e he
    exact h2 e (hsub.subset he)
  · intro b hb
    simp only [check_pending] at hb
    rw [hds] at hb
    rcases List.mem_append.mp hb with hb | hb
    · exact h3 b hb
    · obtain ⟨e, he, rfl⟩ := hdmem b hb
      exact h2 e he
  · intro b hb
    simp only [check_pending] at hb ⊢
    exact go_disjoint env pws repo st.pj 0 st.completed h1 h4 b hb
  · intro b hb
    simp only [check_pending]
    rw [hds]
    exact List.mem_append.mpr (Or.inl hb)

theorem check_baseline_state (st : WatcherState) (hinv : InvS st) :
    InvS (check_baseline st).1 ∧ (check_baseline st).1.completed = st.completed := by
  obtain ⟨h1, h2, h3, h4⟩ := hinv
  refine ⟨⟨?_, ?_, ?_, ?_⟩, rfl⟩
  · simp only [check_baseline, List.map_append, List.map_cons, List.map_nil]
    rw [List.nodup_append]
    refine ⟨h1, by simp, ?_⟩
    intro b hb hb2
    rcases List.mem_map.mp hb with ⟨e, he, rfl⟩
    have := h2 e he
    simp only [List.mem_singleton, bidOf] at hb2 this
    omega
  · intro e he
    simp only [check_baseline] at he ⊢
    rcases List.mem_append.mp he with he | he
    · have := h2 e he
      omega
    · rcases List.mem_singleton.mp he with rfl
      simp [bidOf]
  · intro b hb
    simp only [check_baseline] at hb ⊢
    have := h3 b hb
    omega
  · intro b hb
    simp only [check_baseline] at hb ⊢
    rw [List.map_append]
    intro hmem
    rcases List.mem_append.mp hmem with hmem | hmem
    · exact h4 b hb hmem
    · simp only [List.map_cons, List.map_nil, List.mem_singleton, bidOf] at hmem
      have := h3 b hb
      omega

theorem runOp_state (env : Env) (pws : List Patchwork) (repo : String) (o : Op)
    (st : WatcherState) (hinv : InvS st) :
    InvS (runOp env pws repo o st).1 ∧
    ∀ b ∈ st.completed, b ∈ (runOp env pws repo o st).1.completed := by
  cases o with
  | baseline =>
    obtain ⟨hi, hc⟩ := check_baseline_state st hinv
    exact ⟨hi, fun b hb => hb⟩
  | patchwork =>
    rw [runOp]
    simp only [check_patchwork]
    by_cases hs : pyTruthy (env.get_stable repo) = true
    · rw [if_pos hs]
      obtain ⟨hi, hc⟩ := check_patchwork_go_state env 0 pws st hinv
      exact ⟨hi, fun b hb => by rw [hc]; exact hb⟩
    · rw [if_neg hs]
      exact ⟨hinv, fun b hb => hb⟩
  | pending =>
    rw [runOp]
    exact check_pending_state env pws repo st hinv

theorem runOp_rbm (env : Env) (pws : List Patchwork) (repo : String) (o : Op)
    (st : WatcherState) : RemBeforeMut (runOp env pws repo o st).2.1 := by
  cases o with
  | baseline =>
    rw [runOp]
    exact rbm_cons_nonmut _ _ (fun b => rfl) rbm_nil
  | patchwork =>
    rw [runOp]
    simp only [check_patchwork]
    by_cases hs : pyTruthy (env.get_stable repo) = true
    · rw [if_pos hs]
      intro i ev b hi hm
      have hmem : ev ∈ (check_patchwork_go env 0 pws st).2.1 := by
        rcases List.getElem?_eq_some.mp hi with ⟨hlt, hev⟩
        rw [← hev]
        exact List.getElem_mem hlt
      rcases check_patchwork_go_events env 0 pws st ev hmem with ⟨ps, rfl⟩ | ⟨bid, s, rfl⟩ | ⟨bu, pid, s, rfl⟩ <;>
        simp [isMutFor] at hm
    · rw [if_neg hs]
      exact rbm_nil
  | pending =>
    rw [runOp]
    exact go_rbm env pws repo st.pj 0 st.completed

theorem runOps_state (env : Env) (pws : List Patchwork) (repo : String)
    (ops : List Op) (st : WatcherState) (hinv : InvS st) :
    InvS (runOps env pws repo ops st).1 ∧
    ∀ b ∈ st.completed, b ∈ (runOps env pws repo ops st).1.completed := by
  induction ops generalizing st with
  | nil => exact ⟨hinv, fun b hb => hb⟩
  | cons o os ih =>
    rw [runOps]
    simp only
    obtain ⟨h1, h2⟩ := runOp_state env pws repo o st hinv
    obtain ⟨h3, h4⟩ := ih (runOp env pws repo o st).1 h1
    exact ⟨h3, fun b hb => h4 b (h2 b hb)⟩

theorem runOps_rbm (env : Env) (pws : List Patchwork) (repo : String)
    (ops : List Op) (st : WatcherState) :
    RemBeforeMut (runOps env pws repo ops st).2 := by
  induction ops generalizing st with
  | nil =>
    rw [runOps]
    exact rbm_nil
  | cons o os ih =>
    rw [runOps]
    simp only
    exact rbm_append _ _ (runOp_rbm env pws repo o st) (ih _)

theorem runOps_append_state (env : Env) (pws : List Patchwork) (repo : String)
    (l1 l2 : List Op) (st : WatcherState) :
    (runOps env pws repo (l1 ++ l2) st).1 =
      (runOps env pws repo l2 (runOps env pws repo l1 st).1).1 := by
  induction l1 generalizing st with
  | nil =>
    simp only [List.nil_append]
    rfl
  | cons o os ih =>
    rw [List.cons_append, runOps, runOps]
    simp only
    exact ih _

theorem initState_inv : InvS initState := by
  refine ⟨by simp [initState], ?_, ?_, ?_⟩ <;> intro b hb <;> simp [initState] at hb

theorem py2maxStr_eq_none (a b : Option String) :
    py2maxStr a b = none ↔ a = none ∧ b = none := by
  cases a <;> cases b <;> simp [py2maxStr]

theorem py2maxNat_eq_none (a b : Option Nat) :
    py2maxNat a b = none ↔ a = none ∧ b = none := by
  cases a <;> cases b <;> simp [py2maxNat]

theorem add_pw_v2_eq (db : CursorDb) (projectIdOf : String → String → Nat)
    (pwlist : List PwProject) (baseurl pname : String) :
    add_pw db projectIdOf pwlist baseurl pname none true =
      match py2maxStr
          (db.get_last_checked_patch_date baseurl (projectIdOf baseurl pname))
          (db.get_last_pending_patch_date baseurl (projectIdOf baseurl pname)) with
      | none => .error (baseurl ++ " project: " ++ pname ++
          " was never tested before, please provide initial patch id")
      | some dm => .ok (pwlist ++
          [{ mkV2 projectIdOf baseurl pname none with since := some dm }]) := rfl

theorem add_pw_v1_eq (db : CursorDb) (projectIdOf : String → String → Nat)
    (pwlist : List PwProject) (baseurl pname : String) :
    add_pw db projectIdOf pwlist baseurl pname none false =
      match py2maxNat
          (db.get_last_checked_patch baseurl (projectIdOf baseurl pname))
          (db.get_last_pending_patch baseurl (projectIdOf baseurl pname)) with
      | none => .error (baseurl ++ " project: " ++ pname ++
          " was never tested before, please provide initial patch id")
      | some m => .ok (pwlist ++
          [{ mkV1 projectIdOf baseurl pname none with lastpatch := some m }]) := rfl

/-- C1: with a configured filter program, a filter exit status of 0
classifies the series ready, 1 classifies it dropped, and any other
status (127, negative, or any further value) raises an exception
that aborts the whole batch; in particular the exit codes 0, 1, 2,
126, 127, -9 classify as ready, dropped, fatal, fatal, fatal, fatal;
and with no filter program configured every input series is ready
and none is dropped. -/
theorem C1_filter_exit_code_mapping :
    (∀ (run : List String → Int) (l : List SeriesSummary),
      filter_patchsets none run l = .ok (l, [])) ∧
    (∀ f : String, f.isEmpty = false → ∀ (run : List String → Int) (s : SeriesSummary),
      (run (filter_argv f s) = 0 → filter_patchsets (some f) run [s] = .ok ([s], [])) ∧
      (run (filter_argv f s) = 1 → filter_patchsets (some f) run [s] = .ok ([], [s])) ∧
      (run (filter_argv f s) ≠ 0 → run (filter_argv f s) ≠ 1 →
        ∃ e, filter_patchsets (some f) run [s] = .error e)) ∧
    (∀ f : String, f.isEmpty = false → ∀ (run : List String → Int) (l : List SeriesSummary),
      (∃ s ∈ l, run (filter_argv f s) ≠ 0 ∧ run (filter_argv f s) ≠ 1) →
      ∃ e, filter_patchsets (some f) run l = .error e) ∧
    (∀ f : String, f.isEmpty = false → ∀ s : SeriesSummary,
      filter_patchsets (some f) (fun _ => 0) [s] = .ok ([s], []) ∧
      filter_patchsets (some f) (fun _ => 1) [s] = .ok ([], [s]) ∧
      ∀ c : Int, c ∈ ([2, 126, 127, -9] : List Int) →
        ∃ e, filter_patchsets (some f) (fun _ => c) [s] = .error e) := by
  refine ⟨fun run l => rfl, fun f hf run s => filter_single f hf run s, ?_, ?_⟩
  · intro f hf run l hbad
    rw [filter_patchsets_eq_loop f hf]
    exact filter_loop_fatal f run l hbad
  · intro f hf s
    refine ⟨(filter_single f hf _ s).1 rfl, (filter_single f hf _ s).2.1 rfl, ?_⟩
    intro c hc
    have hgen := (filter_single f hf (fun _ => c) s).2.2
    fin_cases hc <;> exact hgen (by norm_num) (by norm_num)

/-- Witness for C1: the six exit codes on a concrete series, and the
pass-through with no filter configured. -/
theorem C1_filter_exit_code_mapping_witness :
    filter_patchsets (some "flt") (fun _ => 0) [wSeries] = .ok ([wSeries], []) ∧
    filter_patchsets (some "flt") (fun _ => 1) [wSeries] = .ok ([], [wSeries]) ∧
    (∃ e, filter_patchsets (some "flt") (fun _ => 2) [wSeries] = .error e) ∧
    (∃ e, filter_patchsets (some "flt") (fun _ => 126) [wSeries] = .error e) ∧
    (∃ e, filter_patchsets (some "flt") (fun _ => 127) [wSeries] = .error e) ∧
    (∃ e, filter_patchsets (some "flt") (fun _ => (-9 : Int)) [wSeries] = .error e) ∧
    filter_patchsets none (fun _ => 2) [wSeries] = .ok ([wSeries], []) := by
  obtain ⟨hA, -, -, hD⟩ := C1_filter_exit_code_mapping
  obtain ⟨h0, h1, hrest⟩ := hD "flt" (by decide) wSeries
  exact ⟨h0, h1, hrest 2 (by norm_num), hrest 126 (by norm_num),
    hrest 127 (by norm_num), hrest (-9) (by norm_num), hA _ _⟩

/-- C5: when no stable baseline commit is recorded for the base
repository, the ingestion cycle raises the configuration error
immediately: the returned state is unchanged and the event trace is
empty, so no series is fetched, no filter is run, no build is
submitted and no store mutation occurs, whatever the Patchwork list
and the rest of the environment are. -/
theorem C5_baseline_gate (env : Env) (baserepo : String) (pws : List Patchwork)
    (st : WatcherState) (h : env.get_stable baserepo = none) :
    check_patchwork env baserepo pws st =
      (st, [], some ("No known stable baseline for repo " ++ baserepo)) := by
  simp [check_patchwork, h, pyTruthy]

/-- Witness for C5 at a concrete environment with no stable
baseline. -/
theorem C5_baseline_gate_witness :
    check_patchwork wEnvNoStable "r" [wIface] wStateTwo =
      (wStateTwo, [], some ("No known stable baseline for repo " ++ "r")) :=
  C5_baseline_gate wEnvNoStable "r" [wIface] wStateTwo rfl

/-- C8: registering a project with no explicit starting cursor
raises the fatal configuration error exactly when the store has
neither a last-checked nor a last-pending cursor for the project
(Python 2 max treats None as below every value, so the max of the
two cursors is None exactly then); when prior activity exists the
project is appended with its cursor bootstrapped to the maximum of
the two values, in both the REST (date cursors) and XMLRPC
(patch-id cursors) variants. -/
theorem C8_add_pw_bootstrap (db : CursorDb) (projectIdOf : String → String → Nat)
    (pwlist : List PwProject) (baseurl pname : String) :
    ((add_pw db projectIdOf pwlist baseurl pname none true).isOk = false ↔
      db.get_last_checked_patch_date baseurl (projectIdOf baseurl pname) = none ∧
      db.get_last_pending_patch_date baseurl (projectIdOf baseurl pname) = none) ∧
    (∀ dm : String,
      py2maxStr (db.get_last_checked_patch_date baseurl (projectIdOf baseurl pname))
        (db.get_last_pending_patch_date baseurl (projectIdOf baseurl pname)) = some dm →
      add_pw db projectIdOf pwlist baseurl pname none true =
        .ok (pwlist ++ [{ mkV2 projectIdOf baseurl pname none with since := some dm }])) ∧
    ((add_pw db projectIdOf pwlist baseurl pname none false).isOk = false ↔
      db.get_last_checked_patch baseurl (projectIdOf baseurl pname) = none ∧
      db.get_last_pending_patch baseurl (projectIdOf baseurl pname) = none) ∧
    (∀ m : Nat,
      py2maxNat (db.get_last_checked_patch baseurl (projectIdOf baseurl pname))
        (db.get_last_pending_patch baseurl (projectIdOf baseurl pname)) = some m →
      add_pw db projectIdOf pwlist baseurl pname none false =
        .ok (pwlist ++ [{ mkV1 projectIdOf baseurl pname none with lastpatch := some m }])) := by
  refine ⟨?_, ?_, ?_, ?_⟩
  · rw [add_pw_v2_eq]
    rcases hmax : py2maxStr
        (db.get_last_checked_patch_date baseurl (projectIdOf baseurl pname))
        (db.get_last_pending_patch_date baseurl (projectIdOf baseurl pname))
      with _ | dm
    · simp only [Except.isOk]
      exact ⟨fun _ => (py2maxStr_eq_none _ _).mp hmax, fun _ => rfl⟩
    · simp only [Except.isOk]
      constructor
      · intro hfalse
        simp [Except.toBool] at hfalse
      · intro ⟨h1, h2⟩
        rw [h1, h2] at hmax
        exact absurd hmax (by simp [py2maxStr])
  · intro dm hdm
    rw [add_pw_v2_eq, hdm]
  · rw [add_pw_v1_eq]
    rcases hmax : py2maxNat
        (db.get_last_checked_patch baseurl (projectIdOf baseurl pname))
        (db.get_last_pending_patch baseurl (projectIdOf baseurl pname))
      with _ | m
    · simp only [Except.isOk]
      exact ⟨fun _ => (py2maxNat_eq_none _ _).mp hmax, fun _ => rfl⟩
    · simp only [Except.isOk]
      constructor
      · intro hfalse
        simp [Except.toBool] at hfalse
      · intro ⟨h1, h2⟩
        rw [h1, h2] at hmax
        exact absurd hmax (by simp [py2maxNat])
  · intro m hm
    rw [add_pw_v1_eq, hm]

/-- Witness for C8: with no recorded activity registration fails in
both variants; with recorded activity the cursor is the maximum of
the two store values. -/
theorem C8_add_pw_bootstrap_witness :
    (add_pw wDbNone (fun _ _ => 4) [] "u" "p" none true).isOk = false ∧
    (add_pw wDbNone (fun _ _ => 4) [] "u" "p" none false).isOk = false ∧
    add_pw wDbAll (fun _ _ => 4) [] "u" "p" none false =
      .ok [{ mkV1 (fun _ _ => 4) "u" "p" none with lastpatch := some 9 }] ∧
    add_pw wDbAll (fun _ _ => 4) [] "u" "p" none true =
      .ok [{ mkV2 (fun _ _ => 4) "u" "p" none with
              since := some "2017-02-01 10:00:00" }] := by
  obtain ⟨hA, hB, hC, hD⟩ := C8_add_pw_bootstrap wDbNone (fun _ _ => 4) [] "u" "p"
  obtain ⟨hA2, hB2, hC2, hD2⟩ := C8_add_pw_bootstrap wDbAll (fun _ _ => 4) [] "u" "p"
  refine ⟨hA.mpr ⟨rfl, rfl⟩, hC.mpr ⟨rfl, rfl⟩, ?_, ?_⟩
  · have := hD2 9 (by decide)
    simpa [mkV1, mkV2] using this
  · have := hB2 "2017-02-01 10:00:00" (by decide)
    simpa [mkV1, mkV2] using this



theorem resolve_urls_error_of_mem (interface : Patchwork) (url : String)
    (hparse : parse_patch_url url = none) (urls : List String) (hmem : url ∈ urls) :
    ∃ e, resolve_urls interface urls = .error e := by
  induction urls with
  | nil => simp at hmem
  | cons u rest ih =>
    rcases List.mem_cons.mp hmem with rfl | hmem
    · rw [resolve_urls]
      rw [show get_patch_info_from_url interface url =
          .error ("Malformed patch url: " ++ url) by
        simp [get_patch_info_from_url, hparse]]
      exact ⟨_, rfl⟩
    · rw [resolve_urls]
      rcases hr : get_patch_info_from_url interface u with e | p
      · exact ⟨e, rfl⟩
      · obtain ⟨e2, he2⟩ := ih hmem
        rw [he2]
        exact ⟨e2, rfl⟩

theorem resolve_job_error_of_mem (pws : List Patchwork) (cpw : Option Nat)
    (url : String) (hparse : parse_patch_url url = none) (urls : List String)
    (hmem : url ∈ urls) : ∃ e, resolve_job pws cpw urls = .error e := by
  rw [resolve_job]
  rcases hop : cpw.bind (fun k => pws[k]?) with _ | interface
  · exact ⟨_, rfl⟩
  · exact resolve_urls_error_of_mem interface url hparse urls hmem

/-- C9 counterexample to the claim as stated: the URL b/patch/123
followed by a newline is not a base followed by /patch/ and a
decimal patch id, yet the code does not raise on it — the final
anchor of the Python pattern also matches just before a single
trailing newline — and instead returns the PatchInfo tuple, with the
newline kept in the stored patch URL. -/
theorem C9_trailing_newline_counterexample :
    (¬ ∃ b d : String, "b/patch/123\n" = b ++ "/patch/" ++ d ∧ d.data ≠ [] ∧
      ∀ c ∈ d.data, c.isDigit = true) ∧
    get_patch_info_from_url wIface "b/patch/123\n" =
      .ok { patch_id := 123, patch_name := "p", patch_url := "b/patch/123\n",
            base_url := "b", project_id := 3,
            patch_date := "2017-01-01T10:00:00" } := by
  constructor
  · rintro ⟨b, d, heq, hne, hdig⟩
    obtain ⟨c, t, hct⟩ : ∃ c t, d.data.reverse = c :: t := by
      cases hrev : d.data.reverse with
      | nil => exact absurd (by simpa using congrArg List.reverse hrev) hne
      | cons c t => exact ⟨c, t, rfl⟩
    have hcd : c.isDigit = true := by
      apply hdig
      apply List.mem_reverse.mp
      rw [hct]
      simp
    have h1 : ("b/patch/123\n" : String).data.reverse =
        (b ++ "/patch/" ++ d).data.reverse := by rw [heq]
    rw [String.data_append, String.data_append, List.reverse_append, hct,
      List.cons_append] at h1
    rw [show ("b/patch/123\n" : String).data.reverse =
        '\n' :: ['3', '2', '1', '/', 'h', 'c', 't', 'a', 'p', '/', 'b']
      from by decide] at h1
    obtain ⟨rfl, -⟩ := List.cons.inj h1
    exact absurd hcd (by decide)
  · rfl

/-- C9, as amended: Python's final anchor also matches just before a
single newline ending the string, and the dot of the first group
does not match a newline. A patch URL that neither has the shape
base ++ /patch/ ++ digits with a newline-free base, nor that shape
followed by one trailing newline, makes get_patch_info_from_url
raise the Malformed patch url exception for every interface; any
URL-list resolution that reaches it fails; the drop-persistence of a
series containing it raises with no series commit at all; and a
tested-patch commit for a build whose recorded URL list contains it
never appears in any reconciliation trace. -/
theorem C9_malformed_patch_url (url : String)
    (hshape : ¬ ∃ b d : String,
      (url = b ++ "/patch/" ++ d ∨ url = b ++ "/patch/" ++ d ++ "\n") ∧
      d.data ≠ [] ∧ (∀ c ∈ d.data, c.isDigit = true) ∧ '\n' ∉ b.data) :
    (∀ interface : Patchwork,
      get_patch_info_from_url interface url = .error ("Malformed patch url: " ++ url)) ∧
    (∀ (interface : Patchwork) (urls : List String), url ∈ urls →
      ∃ e, resolve_urls interface urls = .error e) ∧
    (∀ (interface : Patchwork) (s : SeriesSummary) (rest : List SeriesSummary),
      url ∈ s.patch_urls →
      (drop_loop interface (s :: rest)).1 = [] ∧
      (drop_loop interface (s :: rest)).2.isSome = true) ∧
    (∀ (env : Env) (pws : List Patchwork) (repo : String) (st : WatcherState)
      (b : Nat) (ps : List PatchInfo), url ∈ env.get_patch_url_list b →
      Event.commitTested b ps ∉ (check_pending env pws repo st).2.1) := by
  have hparse : parse_patch_url url = none := by
    rcases hp : parse_patch_url url with _ | bd
    · rfl
    · obtain ⟨b, d⟩ := bd
      obtain ⟨hor, hne, hdig, hnl⟩ := parse_patch_url_shape url b d hp
      exact absurd ⟨b, d, hor, hne, hdig, hnl⟩ hshape
  refine ⟨?_, ?_, ?_, ?_⟩
  · intro interface
    simp [get_patch_info_from_url, hparse]
  · intro interface urls hmem
    exact resolve_urls_error_of_mem interface url hparse urls hmem
  · intro interface s rest hmem
    obtain ⟨e, he⟩ := resolve_urls_error_of_mem interface url hparse s.patch_urls hmem
    rw [drop_loop, he]
    exact ⟨rfl, rfl⟩
  · intro env pws repo st b ps hmem hin
    obtain ⟨cpw, hok⟩ := go_commitTested_resolved env pws repo st.pj 0 st.completed b ps hin
    obtain ⟨e, he⟩ := resolve_job_error_of_mem pws cpw url hparse
      (env.get_patch_url_list b) hmem
    rw [hok] at he
    exact absurd he (by simp)

/-- Witness for C9 at the concrete malformed URL b/patches/5:
resolution raises and drop-persistence of a series holding it
commits nothing. -/
theorem C9_malformed_patch_url_witness :
    get_patch_info_from_url wIface "b/patches/5" =
      .error ("Malformed patch url: " ++ "b/patches/5") ∧
    (drop_loop wIface [wSeriesBad]).1 = [] ∧
    (drop_loop wIface [wSeriesBad]).2.isSome = true := by
  have hshape : ¬ ∃ b d : String,
      ("b/patches/5" = b ++ "/patch/" ++ d ∨
        "b/patches/5" = b ++ "/patch/" ++ d ++ "\n") ∧
      d.data ≠ [] ∧ (∀ c ∈ d.data, c.isDigit = true) ∧ '\n' ∉ b.data := by
    rintro ⟨b, d, hor, hne, hdig, hnl⟩
    have hnone : parse_patch_url "b/patches/5" = none := by decide
    rcases hor with heq | heq
    · have hp := parse_patch_url_append b d hne hdig hnl
      rw [← heq, hnone] at hp
      exact absurd hp (by simp)
    · have hp := parse_patch_url_append_newline b d hne hdig hnl
      rw [← heq, hnone] at hp
      exact absurd hp (by simp)
  obtain ⟨h1, h2, h3, h4⟩ := C9_malformed_patch_url "b/patches/5" hshape
  exact ⟨h1 wIface, (h3 wIface wSeriesBad [] (by decide)).1,
    (h3 wIface wSeriesBad [] (by decide)).2⟩

/-- C10 counterexample to the claim as stated: the URL with base
a-newline-b and digits 5 is of the well-formed shape, but no tuple
is returned — the code raises Malformed patch url, because the
greedy dot group of the Python pattern cannot cross the newline in
the base. -/
theorem C10_newline_base_counterexample :
    (("5" : String).data ≠ [] ∧ ∀ c ∈ ("5" : String).data, c.isDigit = true) ∧
    get_patch_info_from_url wIface ("a\nb" ++ "/patch/" ++ "5") =
      .error ("Malformed patch url: " ++ ("a\nb" ++ "/patch/" ++ "5")) := by
  exact ⟨⟨by decide, by decide⟩, rfl⟩

/-- C10, as amended: for a well-formed URL base ++ /patch/ ++ digits
whose base contains no newline (the greedy dot group cannot match
one) the returned PatchInfo tuple has the decimal value of the
digits as its patch id, the unchanged input URL as its patch URL,
the base as its base URL, the project id taken from the nested
project field exactly for the V2 interface variant, and as its date
the tracker record date with every space replaced by T. -/
theorem C10_patch_info_components (interface : Patchwork) (base ds : String)
    (hne : ds.data ≠ []) (hdig : ∀ c ∈ ds.data, c.isDigit = true)
    (hbase : '\n' ∉ base.data) :
    get_patch_info_from_url interface (base ++ "/patch/" ++ ds) =
      .ok { patch_id := digitsToNat ds.data
            patch_name := (interface.get_patch_by_id (digitsToNat ds.data)).name
            patch_url := base ++ "/patch/" ++ ds
            base_url := base
            project_id := if interface.isV2 = true
              then (interface.get_patch_by_id (digitsToNat ds.data)).project_nested_id
              else (interface.get_patch_by_id (digitsToNat ds.data)).project_id
            patch_date :=
              pyReplaceChar ' ' 'T'
                (interface.get_patch_by_id (digitsToNat ds.data)).date } := by
  simp only [get_patch_info_from_url, parse_patch_url_append base ds hne hdig hbase]

/-- Witness for C10 at a concrete URL with leading-zero digits: the
patch id is the decimal value 123 and the date has its space turned
into T. -/
theorem C10_patch_info_components_witness :
    get_patch_info_from_url wIface ("https://x" ++ "/patch/" ++ "00123") =
      .ok { patch_id := 123, patch_name := "p",
            patch_url := "https://x" ++ "/patch/" ++ "00123",
            base_url := "https://x", project_id := 3,
            patch_date := "2017-01-01T10:00:00" } := by
  rw [C10_patch_info_components wIface "https://x" "00123" (by decide) (by decide)
    (by decide)]
  rfl



/-- C4: in the ingestion batch of one tracked project, every
committed drop of a dropped series appears in the event trace
strictly before every build submission of the batch: all PatchInfo
tuples of dropped series are persisted before any ready (or expired
pending) series is submitted to the CI backend. -/
theorem C4_drop_before_submit (env : Env) (pwIdx : Nat) (interface : Patchwork)
    (st : WatcherState) (i j : Nat) (ps : List PatchInfo) (bid : Nat)
    (s : SeriesSummary)
    (hi : (process_pw env pwIdx interface st).2.1[i]? = some (Event.commitSeries ps))
    (hj : (process_pw env pwIdx interface st).2.1[j]? = some (Event.submitBuild bid s)) :
    i < j := by
  obtain ⟨d, sub, hsplit, hd, hsub, -⟩ := process_pw_trace_split env pwIdx interface st
  rw [hsplit] at hi hj
  have hjlen : ¬ j < d.length := by
    intro hjl
    rw [List.getElem?_append_left hjl] at hj
    have hm : Event.submitBuild bid s ∈ d := by
      rcases List.getElem?_eq_some.mp hj with ⟨hlt, hv⟩
      rw [← hv]
      exact List.getElem_mem hlt
    obtain ⟨ps2, hps⟩ := hd _ hm
    exact absurd hps (by simp)
  have hilen : i < d.length := by
    by_contra hil
    rw [List.getElem?_append_right (by omega)] at hi
    have hm : Event.commitSeries ps ∈ sub := by
      rcases List.getElem?_eq_some.mp hi with ⟨hlt, hv⟩
      rw [← hv]
      exact List.getElem_mem hlt
    rcases hsub _ hm with ⟨b2, s2, hq⟩ | ⟨bu, pid, s2, hq⟩ <;>
      exact absurd hq (by simp)
  omega

/-- Witness for C4: with a filter dropping one of two new series,
the batch trace commits the dropped series at position 0 and submits
the ready one at position 1. -/
theorem C4_drop_before_submit_witness :
    (process_pw wEnvFilter 0 wIface initState).2.1[0]? =
      some (Event.commitSeries
        [{ patch_id := 2, patch_name := "p", patch_url := "b/patch/2",
           base_url := "b", project_id := 3,
           patch_date := "2017-01-01T10:00:00" }]) ∧
    (process_pw wEnvFilter 0 wIface initState).2.1[1]? =
      some (Event.submitBuild 0 wSeries) ∧
    (0 : Nat) < 1 := by
  refine ⟨by rfl, by rfl, ?_⟩
  exact C4_drop_before_submit wEnvFilter 0 wIface initState 0 1 _ 0 wSeries
    (by rfl) (by rfl)

/-- C7: in the ingestion batch of one tracked project, every pending
mark written for a series is preceded in the event trace by a build
submission of that same series: the pending mark is written only
after the submission for the series was requested. -/
theorem C7_submit_before_pending (env : Env) (pwIdx : Nat) (interface : Patchwork)
    (st : WatcherState) (i : Nat) (bu : String) (pid : Nat) (s : SeriesSummary)
    (hi : (process_pw env pwIdx interface st).2.1[i]? =
      some (Event.setPatchsetPending bu pid s)) :
    ∃ j bid, j < i ∧
      (process_pw env pwIdx interface st).2.1[j]? =
        some (Event.submitBuild bid s) := by
  obtain ⟨d, sub, hsplit, hd, -, hpend⟩ := process_pw_trace_split env pwIdx interface st
  rw [hsplit] at hi ⊢
  by_cases hlt : i < d.length
  · rw [List.getElem?_append_left hlt] at hi
    have hm : Event.setPatchsetPending bu pid s ∈ d := by
      rcases List.getElem?_eq_some.mp hi with ⟨hlt2, hv⟩
      rw [← hv]
      exact List.getElem_mem hlt2
    obtain ⟨ps2, hps⟩ := hd _ hm
    exact absurd hps (by simp)
  · rw [List.getElem?_append_right (by omega)] at hi
    obtain ⟨j, bid2, hj, hjv⟩ := hpend _ bu pid s hi
    refine ⟨d.length + j, bid2, by omega, ?_⟩
    rw [List.getElem?_append_right (by omega)]
    simpa using hjv

/-- Witness for C7: in the concrete batch the pending mark at
position 2 is preceded by the submission of the same series. -/
theorem C7_submit_before_pending_witness :
    (process_pw wEnvFilter 0 wIface initState).2.1[2]? =
      some (Event.setPatchsetPending "b" 3 wSeries) ∧
    ∃ j bid, j < 2 ∧
      (process_pw wEnvFilter 0 wIface initState).2.1[j]? =
        some (Event.submitBuild bid wSeries) := by
  refine ⟨by rfl, ?_⟩
  exact C7_submit_before_pending wEnvFilter 0 wIface initState 2 "b" 3 wSeries (by rfl)

/-- C6: when a completed build reports the infrastructure-error
result, the reconciliation pass performs no store mutation for that
build (no baseline update, no tested-patch commit, whatever the job
type), and once it observes the completion it removes the entry,
which is then no longer in the in-flight set. -/
theorem C6_error_result_no_mutation (env : Env) (pws : List Patchwork)
    (repo : String) (st : WatcherState) (hn : (st.pj.map bidOf).Nodup)
    (e : InFlight) (_he : e ∈ st.pj)
    (hres : env.get_result (bidOf e) = TestResult.ERROR) :
    (∀ ev ∈ (check_pending env pws repo st).2.1, isMutFor (bidOf e) ev = false) ∧
    (Event.queryComplete (bidOf e) true ∈ (check_pending env pws repo st).2.1 →
      Event.removeJob (bidOf e) ∈ (check_pending env pws repo st).2.1 ∧
      bidOf e ∉ (check_pending env pws repo st).1.pj.map bidOf) := by
  refine ⟨?_, fun hq => ⟨?_, ?_⟩⟩
  · intro ev hev
    exact go_no_mut_of_error env pws repo st.pj 0 st.completed (bidOf e) hres ev hev
  · exact go_query_remove env pws repo st.pj 0 st.completed (bidOf e) hq
  · exact go_removed_gone env pws repo st.pj 0 st.completed (bidOf e) hn
      (go_query_remove env pws repo st.pj 0 st.completed (bidOf e) hq)

/-- Witness for C6: a single completed PATCHWORK job with an ERROR
result is removed and triggers no store mutation. -/
theorem C6_error_result_no_mutation_witness :
    (∀ ev ∈ (check_pending wEnvBase [] "r" wStatePW).2.1, isMutFor 5 ev = false) ∧
    Event.removeJob 5 ∈ (check_pending wEnvBase [] "r" wStatePW).2.1 ∧
    (5 : Nat) ∉ (check_pending wEnvBase [] "r" wStatePW).1.pj.map bidOf := by
  have h0 : check_pending_go wEnvBase [] "r" [(JobType.PATCHWORK, 5, some 0)] 0 [] =
      ([], [5], [Event.queryComplete 5 true, Event.removeJob 5], none) := by
    rw [go_step_error wEnvBase [] "r" [(JobType.PATCHWORK, 5, some 0)] 0 []
      (by decide) rfl rfl]
    rw [show ([(JobType.PATCHWORK, 5, some 0)] : List InFlight).erase
        ([(JobType.PATCHWORK, 5, some 0)] : List InFlight)[0] = [] from by decide]
    rw [go_step_done wEnvBase [] "r" [] (0 + 1)
      ([] ++ [([(JobType.PATCHWORK, 5, some 0)] : List InFlight)[0].2.1]) (by decide)]
    rfl
  have h := C6_error_result_no_mutation wEnvBase [] "r" wStatePW (by decide)
    (JobType.PATCHWORK, 5, some 0) (by decide) rfl
  have hq : Event.queryComplete 5 true ∈ (check_pending wEnvBase [] "r" wStatePW).2.1 := by
    show Event.queryComplete 5 true ∈
      (check_pending_go wEnvBase [] "r" [(JobType.PATCHWORK, 5, some 0)] 0 []).2.2.1
    rw [h0]
    simp
  exact ⟨h.1, (h.2 hq).1, (h.2 hq).2⟩



/-- C2, code-bug demonstration: with two completed baseline jobs in
flight, a single reconciliation pass queries and removes the first
job but never queries the completion status of the second one — the
removal from the list being iterated over shifts the second entry
into the consumed slot, so the Python iterator skips it. The second
entry survives the pass untouched even though its build is complete.
The specification says every entry in the in-flight set at the start
of the pass is queried. -/
theorem C2_check_pending_skips_entry :
    ((JobType.BASELINE, 1, (none : Option Nat)) ∈ wStateTwo.pj) ∧
    wEnvBase.is_build_complete 1 = true ∧
    (check_pending wEnvBase [] "r" wStateTwo).2.1 =
      [Event.queryComplete 0 true, Event.removeJob 0] ∧
    (∀ br : Bool,
      Event.queryComplete 1 br ∉ (check_pending wEnvBase [] "r" wStateTwo).2.1) ∧
    (check_pending wEnvBase [] "r" wStateTwo).1.pj = [(JobType.BASELINE, 1, none)] := by
  have h0 : check_pending_go wEnvBase [] "r"
      [(JobType.BASELINE, 0, none), (JobType.BASELINE, 1, none)] 0 [] =
      ([(JobType.BASELINE, 1, none)], [0],
       [Event.queryComplete 0 true, Event.removeJob 0], none) := by
    rw [go_step_error wEnvBase [] "r"
      [(JobType.BASELINE, 0, none), (JobType.BASELINE, 1, none)] 0 [] (by decide) rfl rfl]
    rw [show ([(JobType.BASELINE, 0, none), (JobType.BASELINE, 1, none)] : List InFlight).erase
        ([(JobType.BASELINE, 0, none), (JobType.BASELINE, 1, none)] : List InFlight)[0] =
        [(JobType.BASELINE, 1, none)] from by decide]
    rw [go_step_done wEnvBase [] "r" [(JobType.BASELINE, 1, none)] (0 + 1)
      ([] ++ [([(JobType.BASELINE, 0, none), (JobType.BASELINE, 1, none)] :
        List InFlight)[0].2.1]) (by decide)]
    rfl
  refine ⟨by decide, rfl, ?_, ?_, ?_⟩
  · show (check_pending_go wEnvBase [] "r"
      [(JobType.BASELINE, 0, none), (JobType.BASELINE, 1, none)] 0 []).2.2.1 = _
    rw [h0]
  · intro br
    show Event.queryComplete 1 br ∉ (check_pending_go wEnvBase [] "r"
      [(JobType.BASELINE, 0, none), (JobType.BASELINE, 1, none)] 0 []).2.2.1
    rw [h0]
    simp
  · show (check_pending_go wEnvBase [] "r"
      [(JobType.BASELINE, 0, none), (JobType.BASELINE, 1, none)] 0 []).1 = _
    rw [h0]

/-- C3: over every sequence of watcher operations from a fresh
watcher, the in-flight list never holds two entries with the same
build id; in every reconciliation trace the removal of a completed
build precedes every store mutation recorded for it; and once a
build id enters the observed-completed history it never reappears in
the in-flight list, whatever operations follow. -/
theorem C3_inflight_invariant (env : Env) (pws : List Patchwork) (repo : String) :
    (∀ ops : List Op, ((watcherRun env pws repo ops).1.pj.map bidOf).Nodup) ∧
    (∀ ops : List Op, RemBeforeMut (watcherRun env pws repo ops).2) ∧
    (∀ (ops rest : List Op) (b : Nat),
      b ∈ (watcherRun env pws repo ops).1.completed →
      b ∉ (watcherRun env pws repo (ops ++ rest)).1.pj.map bidOf) := by
  refine ⟨?_, ?_, ?_⟩
  · intro ops
    exact (runOps_state env pws repo ops initState initState_inv).1.1
  · intro ops
    exact runOps_rbm env pws repo ops initState
  · intro ops rest b hb
    have hmid : InvS (runOps env pws repo ops initState).1 :=
      (runOps_state env pws repo ops initState initState_inv).1
    have hfin := runOps_state env pws repo rest (runOps env pws repo ops initState).1 hmid
    have hbf : b ∈ (runOps env pws repo rest
        (runOps env pws repo ops initState).1).1.completed :=
      hfin.2 b hb
    have hnot := hfin.1.2.2.2 b hbf
    rw [watcherRun, runOps_append_state]
    exact hnot

/-- Witness for C3: after a baseline submission and a reconciliation
pass build 0 is in the observed-completed history, and it is not in
flight after a further baseline submission. -/
theorem C3_inflight_invariant_witness :
    (0 : Nat) ∈ (watcherRun wEnvBase [] "r" [Op.baseline, Op.pending]).1.completed ∧
    (0 : Nat) ∉ (watcherRun wEnvBase [] "r"
      ([Op.baseline, Op.pending] ++ [Op.baseline])).1.pj.map bidOf := by
  have hgo : check_pending_go wEnvBase [] "r" [(JobType.BASELINE, 0, none)] 0 [] =
      ([], [0], [Event.queryComplete 0 true, Event.removeJob 0], none) := by
    rw [go_step_error wEnvBase [] "r" [(JobType.BASELINE, 0, none)] 0 []
      (by decide) rfl rfl]
    rw [show ([(JobType.BASELINE, 0, none)] : List InFlight).erase
        ([(JobType.BASELINE, 0, none)] : List InFlight)[0] = [] from by decide]
    rw [go_step_done wEnvBase [] "r" [] (0 + 1)
      ([] ++ [([(JobType.BASELINE, 0, none)] : List InFlight)[0].2.1]) (by decide)]
    rfl
  have h1 : (runOps wEnvBase [] "r" [Op.baseline, Op.pending] initState).1 =
      { pj := [], nextBuild := 1, completed := [0] } := by
    show (runOps wEnvBase [] "r" [Op.pending]
      (runOp wEnvBase [] "r" Op.baseline initState).1).1 = _
    have h2 : (runOp wEnvBase [] "r" Op.baseline initState).1 =
        { pj := [(JobType.BASELINE, 0, none)], nextBuild := 1, completed := [] } := by
      rfl
    rw [h2]
    show (check_pending wEnvBase [] "r"
      { pj := [(JobType.BASELINE, 0, none)], nextBuild := 1, completed := [] }).1 = _
    show { pj := (check_pending_go wEnvBase [] "r" [(JobType.BASELINE, 0, none)] 0 []).1,
           nextBuild := 1,
           completed :=
             (check_pending_go wEnvBase [] "r" [(JobType.BASELINE, 0, none)] 0 []).2.1 } =
      ({ pj := [], nextBuild := 1, completed := [0] } : WatcherState)
    rw [hgo]
  constructor
  · show (0 : Nat) ∈ (runOps wEnvBase [] "r" [Op.baseline, Op.pending] initState).1.completed
    rw [h1]
    simp
  · have h3 := (C3_inflight_invariant wEnvBase [] "r").2.2
      [Op.baseline, Op.pending] [Op.baseline] 0
    apply h3
    show (0 : Nat) ∈ (runOps wEnvBase [] "r" [Op.baseline, Op.pending] initState).1.completed
    rw [h1]
    simp

end Sktm
